import Mathlib

/-!
Verification of the routing, address-codec, SOCKS5 handshake and configuration
reload components of the bbs proxy router (Go). The development is a shallow
embedding: Go strings are byte lists (a Go string is a byte slice), the
relevant functions of the Go standard library package net and of the program
itself are translated into executable Lean functions, and the claims of the
specification are settled as theorems about these functions.
-/

set_option maxRecDepth 8000
set_option linter.unusedVariables false

deriving instance DecidableEq for Except

/-- GoString models a Go string, which is a sequence of bytes. -/
abbrev GoString := List Nat

/-- gs converts an ASCII Lean string literal into the byte list of the
corresponding Go string (each ASCII character is one byte). -/
def gs (s : String) : GoString := s.data.map Char.toNat

/-- indexByte models the Go function bytealg.IndexByteString used by the
net package: the index of the first occurrence of byte b in s, if any. -/
def indexByte : GoString → Nat → Option Nat
  | [], _ => none
  | c :: t, b => if c = b then some 0 else (indexByte t b).map (fun i => i + 1)

/-- lastIndexByte models bytealg.LastIndexByteString: the index of the last
occurrence of byte b in s, if any. -/
def lastIndexByte (s : GoString) (b : Nat) : Option Nat :=
  match indexByte s.reverse b with
  | none => none
  | some i => some (s.length - 1 - i)

/-- splitHostPort embeds Go net.SplitHostPort: the port starts after the
last colon (byte 58); a host containing colons must be bracketed with
bytes 91 and 93; stray brackets are rejected. -/
def splitHostPort (hostport : GoString) : Except String (GoString × GoString) :=
  match lastIndexByte hostport 58 with
  | none => .error ("missing port in address")
  | some i =>
    if hostport.head? = some 91 then
      match indexByte hostport 93 with
      | none => .error ("missing right bracket in address")
      | some e =>
        if e + 1 = hostport.length then .error ("missing port in address")
        else if e + 1 = i then
          if (indexByte (hostport.drop 1) 91).isSome then
            .error ("unexpected left bracket in address")
          else if (indexByte (hostport.drop (e + 1)) 93).isSome then
            .error ("unexpected right bracket in address")
          else .ok ((hostport.drop 1).take (e - 1), hostport.drop (i + 1))
        else if hostport.get? (e + 1) = some 58 then
          .error ("too many colons in address")
        else .error ("missing port in address")
    else
      if (indexByte (hostport.take i) 58).isSome then
        .error ("too many colons in address")
      else if (indexByte hostport 91).isSome then
        .error ("unexpected left bracket in address")
      else if (indexByte hostport 93).isSome then
        .error ("unexpected right bracket in address")
      else .ok (hostport.take i, hostport.drop (i + 1))

/-- joinHostPort embeds Go net.JoinHostPort: a host containing a colon is
wrapped in square brackets. -/
def joinHostPort (host port : GoString) : GoString :=
  if (indexByte host 58).isSome then 91 :: (host ++ 93 :: 58 :: port)
  else host ++ 58 :: port

/-- isDigit tests for an ASCII decimal digit byte. -/
def isDigit (c : Nat) : Bool := 48 ≤ c && c ≤ 57

/-- digitsVal is the value of a string of ASCII decimal digits, most
significant first, as accumulated by the digit loops of the Go source. -/
def digitsVal (s : GoString) : Nat := s.foldl (fun a c => a * 10 + (c - 48)) 0

/-- itoaAux peels decimal digits from the least significant end; the first
argument is fuel bounding the number of digits, so that the recursion is
structural and the function evaluates inside the kernel. -/
def itoaAux : Nat → Nat → GoString
  | 0, _ => []
  | fuel + 1, n => if n = 0 then [] else itoaAux fuel (n / 10) ++ [n % 10 + 48]

/-- itoa renders a natural number in decimal, as Go strconv.Itoa does for
nonnegative values. -/
def itoa (n : Nat) : GoString :=
  if n = 0 then [48] else itoaAux (n + 1) n

/-- itoaAux agrees with the Mathlib decimal digit list once the fuel covers
the input, connecting itoa to the Nat.digits API. -/
theorem itoaAux_eq_digits (fuel n : Nat) (h : n ≤ fuel) :
    itoaAux fuel n = ((Nat.digits 10 n).map (fun d => d + 48)).reverse := by
  induction fuel generalizing n with
  | zero =>
    interval_cases n
    simp [itoaAux]
  | succ fuel ih =>
    by_cases hn : n = 0
    · simp [itoaAux, hn]
    · have hd : Nat.digits 10 n = n % 10 :: Nat.digits 10 (n / 10) :=
        Nat.digits_def' (by norm_num) (Nat.pos_of_ne_zero hn)

      have hdiv : n / 10 ≤ fuel := by
        have : n / 10 < n := Nat.div_lt_self (Nat.pos_of_ne_zero hn) (by norm_num)
        omega
      simp [itoaAux, hn, hd, ih _ hdiv]

/-- atoiDigits parses the digit part of Go strconv.ParseInt: at least one
digit, all digits, and the value bounded by the int64 range. -/
def atoiDigits (neg : Bool) (ds : GoString) : Except String Int :=
  if ds = [] then .error ("invalid syntax")
  else if !ds.all isDigit then .error ("invalid syntax")
  else
    let v := digitsVal ds
    if neg then
      if 2 ^ 63 < v then .error ("value out of range") else .ok (-(v : Int))
    else
      if 2 ^ 63 ≤ v then .error ("value out of range") else .ok ((v : Int))

/-- atoi embeds Go strconv.Atoi: an optional leading sign byte followed by
the digit part. -/
def atoi (s : GoString) : Except String Int :=
  if s.head? = some 43 then atoiDigits false (s.drop 1)
  else if s.head? = some 45 then atoiDigits true (s.drop 1)
  else atoiDigits false s

/-- validOctet captures the acceptance condition of one dotted field in the
Go netip IPv4 parser: at least one digit, all digits, value at most 255,
and no leading zero (the parser rejects a second digit after a first 0). -/
def validOctet (f : GoString) : Bool :=
  !f.isEmpty && f.all isDigit && decide (digitsVal f ≤ 255) &&
    (f.length = 1 || f.head? ≠ some 48)

/-- parseIPv4 embeds the Go netip IPv4 parser (parseIPv4Fields): exactly
four dot-separated fields, each a valid octet. The character loop of the Go
source accepts a string exactly under these conditions, so the field-wise
formulation is the same function. Returns the four octet values. -/
def parseIPv4 (s : GoString) : Option (List Nat) :=
  let fields := s.splitOn 46
  if fields.length = 4 && fields.all validOctet then
    some (fields.map digitsVal)
  else none

/-- hexDigitVal gives the value of an ASCII hex digit byte, if it is one. -/
def hexDigitVal (c : Nat) : Option Nat :=
  if 48 ≤ c ∧ c ≤ 57 then some (c - 48)
  else if 97 ≤ c ∧ c ≤ 102 then some (c - 97 + 10)
  else if 65 ≤ c ∧ c ≤ 70 then some (c - 65 + 10)
  else none

/-- takeHex scans a leading group of hex digits as the inner loop of the Go
netip IPv6 parser does, returning the group value and the number of digits
consumed, or none if a fifth hex digit is found (the source fails there). -/
def takeHex : GoString → Nat → Nat → Option (Nat × Nat)
  | [], v, g => some (v, g)
  | c :: rest, v, g =>
    match hexDigitVal c with
    | none => some (v, g)
    | some d => if 4 ≤ g then none else takeHex rest (v * 16 + d) (g + 1)

/-- finishIPv6 models the code after the field loop of the Go netip IPv6
parser: any remaining input is trailing garbage; fewer than 16 bytes
require an ellipsis, which expands to zero fields; a full 16 bytes with an
ellipsis is an error (the ellipsis must cover at least one zero group). -/
def finishIPv6 (i : Nat) (ip : List Nat) (ell : Option Nat) (s : GoString) :
    Option (List Nat) :=
  if s ≠ [] then none
  else if i < 16 then
    match ell with
    | none => none
    | some e => some (ip.take e ++ List.replicate (16 - i) 0 ++ ip.drop e)
  else if ell.isSome then none
  else some ip

/-- parseIPv6Aux is the field loop of the Go netip IPv6 parser: i counts
bytes already produced, ip is the bytes so far, ell the ellipsis position.
An embedded IPv4 suffix is allowed in the last four bytes. The fuel
argument makes the recursion structural; each iteration consumes at least
one input byte, so fuel larger than the input length is never exhausted. -/
def parseIPv6Aux : Nat → GoString → Nat → List Nat → Option Nat → Option (List Nat)
  | 0, _, _, _, _ => none
  | fuel + 1, s, i, ip, ell =>
    if 16 ≤ i then finishIPv6 i ip ell s
    else
      match takeHex s 0 0 with
      | none => none
      | some (v, g) =>
        if g = 0 then none
        else
          if (s.drop g).head? = some 46 then
            if ell = none ∧ i ≠ 12 then none
            else if 16 < i + 4 then none
            else
              match parseIPv4 s with
              | none => none
              | some f4 => finishIPv6 (i + 4) (ip ++ f4) ell []
          else
            if s.drop g = [] then
              finishIPv6 (i + 2) (ip ++ [v / 256, v % 256]) ell []
            else if (s.drop g).head? ≠ some 58 then none
            else if (s.drop g).length = 1 then none
            else
              if ((s.drop g).drop 1).head? = some 58 then
                if ell.isSome then none
                else
                  if ((s.drop g).drop 1).drop 1 = [] then
                    finishIPv6 (i + 2) (ip ++ [v / 256, v % 256]) (some (i + 2)) []
                  else
                    parseIPv6Aux fuel (((s.drop g).drop 1).drop 1) (i + 2)
                      (ip ++ [v / 256, v % 256]) (some (i + 2))
              else
                parseIPv6Aux fuel ((s.drop g).drop 1) (i + 2)
                  (ip ++ [v / 256, v % 256]) ell

/-- parseIPv6 embeds the Go netip IPv6 parser, restricted to unzoned input:
net.ParseIP rejects every address carrying a zone, so a percent byte (37)
makes the whole parse fail. -/
def parseIPv6 (s : GoString) : Option (List Nat) :=
  if (indexByte s 37).isSome then none
  else if s.take 2 = [58, 58] then
    if s.drop 2 = [] then some (List.replicate 16 0)
    else parseIPv6Aux (s.length + 1) (s.drop 2) 0 [] (some 0)
  else parseIPv6Aux (s.length + 1) s 0 [] none

/-- v4mapped embeds the 16-byte IPv4-in-IPv6 form that net.ParseIP returns
for dotted addresses (the As16 conversion of a 4-byte address). -/
def v4mapped (f : List Nat) : List Nat :=
  List.replicate 10 0 ++ 255 :: 255 :: f

/-- parseAddrSlice embeds netip.ParseAddr followed by AsSlice: the first
special byte dispatches to the IPv4 (4 bytes) or IPv6 (16 bytes) parser,
and a leading percent or no special byte at all is an error. -/
def parseAddrSlice (s : GoString) : Option (List Nat) :=
  match s.find? (fun c => c = 46 || c = 58 || c = 37) with
  | some 46 => parseIPv4 s
  | some 58 => parseIPv6 s
  | _ => none

/-- parseIP embeds Go net.ParseIP: the netip parse result widened to the
16-byte form (dotted quads become IPv4-mapped IPv6 bytes). -/
def parseIP (s : GoString) : Option (List Nat) :=
  match s.find? (fun c => c = 46 || c = 58 || c = 37) with
  | some 46 => (parseIPv4 s).map v4mapped
  | some 58 => parseIPv6 s
  | _ => none

/-- to4 embeds the Go method net.IP.To4: a 4-byte address is returned as
is, a 16-byte IPv4-mapped address is narrowed to its last 4 bytes, and
anything else gives nil. -/
def to4 (ip : List Nat) : Option (List Nat) :=
  if ip.length = 4 then some ip
  else
    if ip.length = 16 ∧ ip.take 10 = List.replicate 10 0 ∧
        ip.get? 10 = some 255 ∧ ip.get? 11 = some 255 then
      some (ip.drop 12)
    else none

/-- ip4String renders 4 address bytes in dotted decimal, as the Go netip
String method does for IPv4. -/
def ip4String : List Nat → GoString
  | [a, b, c, d] => itoa a ++ 46 :: (itoa b ++ 46 :: (itoa c ++ 46 :: itoa d))
  | _ => []

/-- hexChar is the lowercase hex digit byte for a value below 16. -/
def hexChar (d : Nat) : Nat := if d < 10 then 48 + d else 87 + d

/-- hexGroupAux peels hex digits with structural fuel, mirroring itoaAux. -/
def hexGroupAux : Nat → Nat → GoString
  | 0, _ => []
  | fuel + 1, n => if n = 0 then [] else hexGroupAux fuel (n / 16) ++ [hexChar (n % 16)]

/-- hexGroup renders a 16-bit group in lowercase hex without leading
zeros, as the Go netip appendHex does. -/
def hexGroup (v : Nat) : GoString :=
  if v = 0 then [48] else hexGroupAux (v + 1) v

/-- v6u16 reads the 16-bit group j of a 16-byte address. -/
def v6u16 (ip : List Nat) (j : Nat) : Nat :=
  256 * ip.getD (2 * j) 0 + ip.getD (2 * j + 1) 0

/-- runLen counts the consecutive zero groups starting at position i. -/
def runLen (f : List Nat) (i : Nat) : Nat :=
  ((f.drop i).takeWhile (fun v => v = 0)).length

/-- zeroRun finds the start and end of the leftmost longest run of at
least two zero groups, as the Go netip String method does; the sentinel
pair 255, 255 means no such run. Scanning every start position with a
strict improvement test selects the same run as the Go loop, which scans
only run starts: a proper suffix of a run is shorter than the run itself
and therefore never wins. -/
def zeroRun (f : List Nat) : Nat × Nat :=
  (List.range 8).foldl
    (fun best i =>
      let l := runLen f i
      if 2 ≤ l ∧ best.2 - best.1 < l then (i, i + l) else best)
    (255, 255)

/-- ip6FieldsAux is the printing loop of the Go netip String method for
IPv6: groups in hex separated by colons, with the zero run printed as two
colons. Structural fuel bounds the at most eight iterations. -/
def ip6FieldsAux : Nat → List Nat → Nat → Nat → Nat → GoString
  | 0, _, _, _, _ => []
  | fuel + 1, f, i, zs, ze =>
    if 8 ≤ i then []
    else if i = zs then
      58 :: 58 ::
        (if 8 ≤ ze then []
         else hexGroup (f.getD ze 0) ++ ip6FieldsAux fuel f (ze + 1) zs ze)
    else
      (if i = 0 then [] else [58]) ++ hexGroup (f.getD i 0) ++
        ip6FieldsAux fuel f (i + 1) zs ze

/-- ip6String renders a 16-byte address per RFC 5952 as the Go netip
String method does. -/
def ip6String (ip : List Nat) : GoString :=
  let f := (List.range 8).map (v6u16 ip)
  ip6FieldsAux 16 f 0 (zeroRun f).1 (zeroRun f).2

/-- ipString embeds the Go method net.IP.String restricted to the 4-byte
and 16-byte inputs that occur in the program: dotted decimal for IPv4 and
IPv4-mapped bytes, RFC 5952 text for other 16-byte addresses. The nil and
odd-length branches of the source return fixed markers. -/
def ipString (ip : List Nat) : GoString :=
  if ip = [] then gs ("<nil>")
  else if ip.length ≠ 4 ∧ ip.length ≠ 16 then
    63 :: ip.flatMap (fun b => [hexChar (b / 16), hexChar (b % 16)])
  else
    match to4 ip with
    | some b4 => ip4String b4
    | none => ip6String ip

/-- cidrMask embeds Go net.CIDRMask: bits/8 bytes with n leading one
bits. A byte with l leading ones is 256 - 2 ^ (8 - l). -/
def cidrMask (n bits : Nat) : List Nat :=
  (List.range (bits / 8)).map (fun i => 256 - 2 ^ (8 - min 8 (n - 8 * i)))

/-- ipMask embeds the Go method net.IP.Mask, including the mixed-length
normalizations between 4-byte and IPv4-mapped 16-byte values; a length
mismatch yields nil, modelled by the empty list. -/
def ipMask (ip0 mask0 : List Nat) : List Nat :=
  let mask := if mask0.length = 16 ∧ ip0.length = 4 ∧
      mask0.take 12 = List.replicate 12 255 then mask0.drop 12 else mask0
  let ip := if mask.length = 4 ∧ ip0.length = 16 ∧
      ip0.take 12 = List.replicate 10 0 ++ [255, 255] then ip0.drop 12 else ip0
  if ip.length ≠ mask.length then []
  else List.zipWith (fun a b => a &&& b) ip mask

/-- parseCIDR embeds Go net.ParseCIDR: the text before the first slash is
an address parsed by the netip parser, the text after it is an all-digit
prefix length bounded by the address bit length (the digit scanner dtoi
also caps the value below 0xFFFFFF). The result is the masked network
address and the mask, the two fields of the returned IPNet. -/
def parseCIDR (s : GoString) : Except String (List Nat × List Nat) :=
  match indexByte s 47 with
  | none => .error ("invalid CIDR address")
  | some i =>
    let addr := s.take i
    let mask := s.drop (i + 1)
    match parseAddrSlice addr with
    | none => .error ("invalid CIDR address")
    | some ip =>
      if mask.isEmpty ∨ ¬ mask.all isDigit ∨ 0xFFFFFF ≤ digitsVal mask then
        .error ("invalid CIDR address")
      else
        let n := digitsVal mask
        if 8 * ip.length < n then .error ("invalid CIDR address")
        else
          let m := cidrMask n (8 * ip.length)
          .ok (ipMask ip m, m)

/-- networkNumberAndMask embeds the Go net helper of the same name: the
network address narrowed to 4 bytes when possible and the mask adjusted to
the same width. -/
def networkNumberAndMask (n m : List Nat) : Option (List Nat × List Nat) :=
  let ipq :=
    match to4 n with
    | some x => some x
    | none => if n.length = 16 then some n else none
  match ipq with
  | none => none
  | some ip =>
    if m.length = 4 then
      if ip.length ≠ 4 then none else some (ip, m)
    else if m.length = 16 then
      if ip.length = 4 then some (ip, m.drop 12) else some (ip, m)
    else none

/-- ipnetContains embeds the Go method net.IPNet.Contains applied to the
IPNet with address nIP and mask nMask. -/
def ipnetContains (nIP nMask ip0 : List Nat) : Bool :=
  match networkNumberAndMask nIP nMask with
  | none => false
  | some (nn, m) =>
    let ip := match to4 ip0 with | some x => x | none => ip0
    ip.length = nn.length &&
      (List.range ip.length).all
        (fun i => (nn.getD i 0) &&& (m.getD i 0) = (ip.getD i 0) &&& (m.getD i 0))

/-- RegexpMatcher abstracts the external Go regexp engine: regexp.Match
applied to a pattern and a subject, returning an error exactly on invalid
patterns. The evaluator is parametric in it. -/
abbrev RegexpMatcher := GoString → GoString → Except String Bool

/-- rule mirrors the rule struct of the routing configuration. -/
structure rule where
  Rule : GoString
  Variable : GoString
  Content : GoString
  Negate : Bool
  deriving DecidableEq

/-- evaluater mirrors the evaluater interface of the routing model as a
tagged tree: its implementations are the rule atom and the ruleCombo node
with two children and an operator string. -/
inductive evaluater where
  | ruleAtom (r : rule)
  | ruleCombo (rule1 : evaluater) (op : GoString) (rule2 : evaluater)
  deriving DecidableEq

/-- ruleEvaluate embeds the evaluate method on rule: split the address,
then dispatch on the rule kind. A regexp rule selects a variable and asks
the regexp engine; a subnet rule returns false outright when the host is
not IPv4, and otherwise tests CIDR membership. Results are XORed with the
negate flag on the two success paths that reach it. -/
def ruleEvaluate (rm : RegexpMatcher) (r : rule) (addr : GoString) :
    Except String Bool :=
  match splitHostPort addr with
  | .error _ => .error ("error spliting host and port")
  | .ok (host, port) =>
    if r.Rule = gs ("regexp") then
      let variableq : Except String GoString :=
        if r.Variable = gs ("host") then .ok host
        else if r.Variable = gs ("port") then .ok port
        else if r.Variable = gs ("addr") then .ok addr
        else .error ("unknown variable")
      match variableq with
      | .error e => .error e
      | .ok v =>
        match rm r.Content v with
        | .error _ => .error ("error matching regexp")
        | .ok matched => .ok (r.Negate != matched)
    else if r.Rule = gs ("subnet") then
      match (parseIP host).bind to4 with
      | none => .ok false
      | some hostIPv4 =>
        match parseCIDR r.Content with
        | .error _ => .error ("error parsing CIDR")
        | .ok (nIP, nMask) => .ok (r.Negate != ipnetContains nIP nMask hostIPv4)
    else .error ("unknown rule type")

/-- andOps lists the operator strings accepted as conjunction. -/
def andOps : List GoString := [gs ("AND"), gs ("and"), gs ("And"), gs ("&"), gs ("&&")]

/-- orOps lists the operator strings accepted as disjunction. -/
def orOps : List GoString := [gs ("OR"), gs ("or"), gs ("Or"), gs ("|"), gs ("||")]

/-- evaluaterEval embeds the evaluate methods of the evaluater interface:
the atom case delegates to ruleEvaluate, the combo case evaluates both
children (errors surface) and applies the operator. -/
def evaluaterEval (rm : RegexpMatcher) : evaluater → GoString → Except String Bool
  | .ruleAtom r, addr => ruleEvaluate rm r addr
  | .ruleCombo r1 op r2, addr =>
    match evaluaterEval rm r1 addr with
    | .error _ => .error ("error evaluating rule 1")
    | .ok b1 =>
      match evaluaterEval rm r2 addr with
      | .error _ => .error ("error evaluating rule 2")
      | .ok b2 =>
        if op ∈ andOps then .ok (b1 && b2)
        else if op ∈ orOps then .ok (b1 || b2)
        else .error ("unknown op")

/-- ruleBlock mirrors the ruleBlock struct of the routing configuration. -/
structure ruleBlock where
  Comment : GoString
  Rules : evaluater
  Route : GoString
  Disable : Bool
  deriving DecidableEq

/-- routingTable mirrors the routingTable struct: a default route and the
ordered rule blocks. -/
structure routingTable where
  Default : GoString
  Blocks : List ruleBlock
  deriving DecidableEq

/-- loadRoutingTable models the routingTable UnmarshalJSON step that keeps
only the blocks without the disable flag (the parsed default, which the
decoder initializes to drop, is passed through). -/
def loadRoutingTable (dflt : GoString) (blocks : List ruleBlock) : routingTable :=
  { Default := dflt, Blocks := blocks.filter (fun b => !b.Disable) }

/-- getRouteGo is the block loop of routingTable.getRoute: stop at the
first evaluation error or first match; after the last block, return the
default route if nonempty, else drop. -/
def getRouteGo (rm : RegexpMatcher) (addr dflt : GoString) :
    List ruleBlock → Except String GoString
  | [] => if dflt ≠ [] then .ok dflt else .ok (gs ("drop"))
  | b :: rest =>
    match evaluaterEval rm b.Rules addr with
    | .error _ => .error ("error evaluating")
    | .ok true => .ok b.Route
    | .ok false => getRouteGo rm addr dflt rest

/-- getRoute embeds routingTable.getRoute. -/
def getRoute (rm : RegexpMatcher) (table : routingTable) (addr : GoString) :
    Except String GoString :=
  getRouteGo rm addr table.Default table.Blocks

/-- readFull models io.ReadFull on a byte stream: n bytes are consumed, or
the read fails on a truncated stream. A zero-length request succeeds
without reading, as io.ReadFull does on an empty buffer. -/
def readFull (input : List Nat) (n : Nat) : Except String (List Nat × List Nat) :=
  if n ≤ input.length then .ok (input.take n, input.drop n)
  else .error ("unexpected EOF")

/-- uint16Of embeds the Go conversion uint16(x) on an int value: reduction
modulo 2 ^ 16 in two-complement style, which Int.emod with a positive
modulus gives directly. -/
def uint16Of (p : Int) : Nat := (p % 65536).toNat

/-- stringToAddr embeds the SOCKS5 address encoder of the source: split
the address; when the host is no IP, emit a domain with a one-byte length
prefix computed by the Go conversion byte(len(host)); when it is an IPv4,
emit its 4 bytes, else the 16 IPv6 bytes; append the big-endian port from
strconv.Atoi cast to uint16. Returns the data bytes and the ATYP. -/
def stringToAddr (addr : GoString) : Except String (List Nat × Nat) :=
  match splitHostPort addr with
  | .error e => .error e
  | .ok (host, port) =>
    let hb :=
      match parseIP host with
      | none => ((host.length % 256) :: host, 3)
      | some ip16 =>
        match to4 ip16 with
        | some b4 => (b4, 1)
        | none => (ip16, 4)
    match atoi port with
    | .error e => .error e
    | .ok p =>
      let v := uint16Of p
      .ok (hb.1 ++ [v / 256, v % 256], hb.2)

/-- addrToString embeds the SOCKS5 address decoder of the source: per
ATYP, read 4 bytes, 16 bytes, or a one-byte length followed by that many
bytes; unknown ATYP values fail. Then read the 2-byte big-endian port and
join. Returns the decoded address and the remaining stream. -/
def addrToString (input : List Nat) (atyp : Nat) : Except String (GoString × List Nat) :=
  let readAddr : Except String (List Nat × List Nat) :=
    if atyp = 1 then readFull input 4
    else if atyp = 4 then readFull input 16
    else if atyp = 3 then
      match input with
      | [] => .error ("unexpected EOF")
      | size :: rest => readFull rest size
    else .error ("invalid atyp value")
  match readAddr with
  | .error e => .error e
  | .ok (buf, rest1) =>
    let host := if atyp ≠ 3 then ipString buf else buf
    match readFull rest1 2 with
    | .error e => .error e
    | .ok (pb, rest2) =>
      let port := 256 * pb.getD 0 0 + pb.getD 1 0
      .ok (joinHostPort host (itoa port), rest2)

/-- roundTrip composes the SOCKS5 address encoder and decoder on one
address string, giving the decoded address string. -/
def roundTrip (addr : GoString) : Except String GoString :=
  match stringToAddr addr with
  | .error e => .error e
  | .ok (data, atyp) =>
    match addrToString data atyp with
    | .error e => .error e
    | .ok (addr2, _) => .ok addr2

/-- socks5RepError maps a nonzero SOCKS5 reply code to the error message
of the source. -/
def socks5RepError (rep : Nat) : String :=
  if rep = 1 then "general SOCKS server failure"
  else if rep = 2 then "connection not allowed by ruleset"
  else if rep = 3 then "network unreachable"
  else if rep = 4 then "host unreachable"
  else if rep = 5 then "connection refused"
  else if rep = 6 then "TTL expired"
  else if rep = 7 then "command not supported"
  else if rep = 8 then "address type not supported"
  else "custom SOCKS5 error byte"

/-- socks5Handshake embeds the client-side SOCKS5 handshake of the source
on a byte stream: input holds the bytes the proxy will send, user is the
configured user name. The result pairs the list of messages written to
the proxy with either an error or the part of the input stream that the
handshake did not consume. -/
def socks5Handshake (user : GoString) (address : GoString) (input : List Nat) :
    List (List Nat) × Except String (List Nat) :=
  let w1 := if user ≠ [] then [5, 2, 0, 2] else [5, 1, 0]
  match readFull input 2 with
  | .error e => ([w1], .error e)
  | .ok (buff, input1) =>
    let ver := buff.getD 0 0
    let method := buff.getD 1 0
    if ver ≠ 5 then ([w1], .error ("SOCKS5 server version is not 5"))
    else if method = 2 then ([w1], .error ("user/password method not yet implemented"))
    else if method ≠ 0 then ([w1], .error ("unsupported authentication mechanism"))
    else
      match stringToAddr address with
      | .error e => ([w1], .error e)
      | .ok (addrBytes, atyp) =>
        let req := 5 :: 1 :: 0 :: atyp :: addrBytes
        match readFull input1 4 with
        | .error _ => ([w1, req], .error ("error reading SOCKS response"))
        | .ok (resp, input2) =>
          let rep := resp.getD 1 0
          if rep ≠ 0 then ([w1, req], .error (socks5RepError rep))
          else ([w1, req], .ok input2)

/-- socks5Negotiate embeds the method-negotiation prefix of the
server-side SOCKS5 handler: read version and method count, read the
offered methods, select method 0 when offered. The result pairs the
messages written to the client with either an error (the handler returns
and the connection is closed) or the unconsumed input. -/
def socks5Negotiate (input : List Nat) : List (List Nat) × Except String (List Nat) :=
  match readFull input 2 with
  | .error _ => ([], .error ("could not read on client socket"))
  | .ok (buff, in1) =>
    if buff.getD 0 0 ≠ 5 then ([], .error ("only SOCKS5 is supported"))
    else
      match readFull in1 (buff.getD 1 0) with
      | .error _ => ([], .error ("could not read on client socket"))
      | .ok (methods, in2) =>
        let method := methods.foldl (fun m x => if x = 0 then 0 else m) 255
        if method = 255 then
          ([], .error ("no accepted methods proposed by the client"))
        else ([[5, method]], .ok in2)

/-- proxyVal stands for a parsed proxy object; the reload logic moves
these values around without inspecting them, so only the descriptor data
of the underlying baseProxy is kept. -/
structure proxyVal where
  prot : GoString
  host : GoString
  port : GoString
  user : GoString
  pass : GoString
  deriving DecidableEq

/-- proxyChainDesc mirrors the JSON-level chain description struct. -/
structure proxyChainDesc where
  ProxyDns : Bool
  TcpConnectTimeout : Int
  TcpReadTimeout : Int
  Proxies : List GoString
  deriving DecidableEq

/-- proxyChain mirrors the runtime chain struct; a proxies entry is the
map lookup of a name, which in Go is nil for a missing key, modelled by
none. -/
structure proxyChain where
  proxyDns : Bool
  tcpConnectTimeout : Int
  tcpReadTimeout : Int
  proxies : List (Option proxyVal)
  deriving DecidableEq

/-- connHandlerDesc tags the handler carried by a server: the SOCKS5 and
HTTP handlers hold a routing-table name, the forward handler holds a fixed
destination and a chain name. -/
inductive connHandlerDesc where
  | socks5H (table : GoString)
  | httpH (table : GoString)
  | fwdH (dest : GoString) (chain : GoString)
  deriving DecidableEq

/-- server mirrors the configuration-relevant fields of the server struct
(the runtime context, cancel handle and running flag are omitted). -/
structure server where
  descrString : GoString
  prot : GoString
  addr : GoString
  port : GoString
  table : GoString
  handler : connHandlerDesc
  deriving DecidableEq

/-- mainConfig mirrors the parsed unified configuration; Go maps are
association lists whose keys are unique. -/
structure mainConfig where
  Proxies : List (GoString × proxyVal)
  Chains : List (GoString × proxyChainDesc)
  Routes : List (GoString × List ruleBlock)
  Servers : List server
  Hosts : List (GoString × GoString)
  deriving DecidableEq

/-- implicitChainDesc is the single-proxy chain the reload synthesizes for
a declared proxy. -/
def implicitChainDesc (proxyName : GoString) : proxyChainDesc :=
  { ProxyDns := true, TcpConnectTimeout := 1000, TcpReadTimeout := 2000,
    Proxies := [proxyName] }

/-- addImplicitChains models the first reload stage: the defined chain
names are collected once, every proxy whose name collides with one of
them rejects the configuration, and otherwise each proxy gets its
implicit chain added to the chains map. -/
def addImplicitChains (config : mainConfig) : Option mainConfig :=
  let definedChains := config.Chains.map Prod.fst
  if config.Proxies.any (fun p => definedChains.contains p.1) then none
  else
    some { config with
      Chains := config.Chains ++
        config.Proxies.map (fun p => (p.1, implicitChainDesc p.1)) }

/-- chainsProxiesExist models the check that every proxy name used in a
chain is a declared proxy. -/
def chainsProxiesExist (config : mainConfig) : Bool :=
  let definedProxies := config.Proxies.map Prod.fst
  config.Chains.all (fun c => c.2.Proxies.all (fun pn => definedProxies.contains pn))

/-- routesChainsExist models the check that every route of a rule block is
either drop or a defined chain. -/
def routesChainsExist (config : mainConfig) : Bool :=
  let definedChains := config.Chains.map Prod.fst
  config.Routes.all (fun rt =>
    rt.2.all (fun b => b.Route = gs ("drop") || definedChains.contains b.Route))

/-- serversTablesExist models the check that the routing table of every
server is defined, servers with an empty table (forward handlers) being
exempt. No check inspects the chain name of a forward handler; the source
carries that check only as a TODO comment. -/
def serversTablesExist (config : mainConfig) : Bool :=
  let definedRoutingTables := config.Routes.map Prod.fst
  config.Servers.all
    (fun s => definedRoutingTables.contains s.table || s.table = [])

/-- processCandidate chains the reload validation stages in source order;
pacMode selects the PAC branch in which the routing checks are skipped
and pacOk tells whether the PAC file reload succeeded. The result is the
configuration with implicit chains added, or none when any stage rejects
it (the reload loop continues and changes nothing). -/
def processCandidate (pacMode pacOk : Bool) (config : mainConfig) :
    Option mainConfig :=
  match addImplicitChains config with
  | none => none
  | some cfg =>
    if !chainsProxiesExist cfg then none
    else if pacMode then
      if pacOk then some cfg else none
    else if !routesChainsExist cfg then none
    else if !serversTablesExist cfg then none
    else some cfg

/-- buildProxyChains models the construction of the runtime chains map
from the accepted configuration: each description is copied field by
field and its proxy names are looked up in the proxies map. -/
def buildProxyChains (cfg : mainConfig) : List (GoString × proxyChain) :=
  cfg.Chains.map (fun c =>
    (c.1,
     { proxyDns := c.2.ProxyDns, tcpConnectTimeout := c.2.TcpConnectTimeout,
       tcpReadTimeout := c.2.TcpReadTimeout,
       proxies := c.2.Proxies.map (fun pn => cfg.Proxies.lookup pn) }))

/-- compareServers embeds the compare function of the source: servers are
equal when their descriptor strings are equal. -/
def compareServers (s1 s2 : server) : Bool := s1.descrString == s2.descrString

/-- updateServers models the two diff loops of the reload: old servers
that no longer appear in the new configuration are stopped and removed,
then new servers not already present are appended. -/
def updateServers (old new2 : List server) : List server :=
  let kept := old.filter (fun s => new2.any (fun s2 => compareServers s2 s))
  new2.foldl
    (fun acc s => if acc.any (fun s2 => compareServers s2 s) then acc else acc ++ [s])
    kept

/-- globalState gathers the global tables the reload updates: the chains,
routing and hosts maps and the server list. -/
structure globalState where
  proxychains : List (GoString × proxyChain)
  routing : List (GoString × List ruleBlock)
  hosts : List (GoString × GoString)
  servers : List server
  deriving DecidableEq

/-- reloadStep models one iteration of the reload loop on the global
state: a parse error or a rejected candidate leaves every table as it
was; an accepted candidate installs the built chains map, the hosts map,
the routing map (unless in PAC mode) and the diffed server list. -/
def reloadStep (pacMode pacOk : Bool) (old : globalState)
    (parsed : Except String mainConfig) : globalState :=
  match parsed with
  | .error _ => old
  | .ok config =>
    match processCandidate pacMode pacOk config with
    | none => old
    | some cfg =>
      { proxychains := buildProxyChains cfg
        routing := if pacMode then old.routing else cfg.Routes
        hosts := cfg.Hosts
        servers := updateServers old.servers cfg.Servers }

/-- forwardLookupChain models the chain lookup at the start of
forwardHandler.connHandle: a missing chain makes the handler log an error
and close the client connection without connecting anywhere. -/
def forwardLookupChain (proxychains : List (GoString × proxyChain))
    (chain : GoString) : Option proxyChain :=
  proxychains.lookup chain

section AssocHelpers

variable {β : Type}

/-- lookupEqNone: a key outside the key list of an association list is not
found. -/
theorem lookupEqNone (l : List (GoString × β)) (k : GoString)
    (h : k ∉ l.map Prod.fst) : l.lookup k = none := by
  induction l with
  | nil => rfl
  | cons a t ih =>
    simp only [List.map_cons, List.mem_cons, not_or] at h
    have hk : (k == a.1) = false := by
      simp [beq_eq_false_iff_ne]
      exact h.1
    cases a with
    | mk a1 a2 =>
      simp only [List.lookup_cons, hk]
      exact ih h.2

/-- lookupAppendRight: looking up a key absent from the first part of an
appended association list searches the second part. -/
theorem lookupAppendRight (l1 l2 : List (GoString × β)) (k : GoString)
    (h : k ∉ l1.map Prod.fst) : (l1 ++ l2).lookup k = l2.lookup k := by
  induction l1 with
  | nil => rfl
  | cons a t ih =>
    simp only [List.map_cons, List.mem_cons, not_or] at h
    have hk : (k == a.1) = false := by
      simp [beq_eq_false_iff_ne]
      exact h.1
    cases a with
    | mk a1 a2 =>
      simp only [List.cons_append, List.lookup_cons, hk]
      exact ih h.2

/-- lookupKeyedMap: looking up a key in an association list whose value is
a function of the key alone gives that function of the key, when present. -/
theorem lookupKeyedMap {γ : Type} (l : List (GoString × γ)) (G : GoString → β)
    (k : GoString) (h : k ∈ l.map Prod.fst) :
    (l.map (fun q => (q.1, G q.1))).lookup k = some (G k) := by
  induction l with
  | nil => simp at h
  | cons a t ih =>
    by_cases hk : k = a.1
    · subst hk
      simp [List.lookup_cons]
    · have hbeq : (k == a.1) = false := by
        simp [beq_eq_false_iff_ne]
        exact hk
      simp only [List.map_cons, List.mem_cons, hk, false_or] at h
      simp only [List.map_cons, List.lookup_cons, hbeq]
      exact ih h

/-- lookupOfNodup: with unique keys, a member pair is what lookup finds. -/
theorem lookupOfNodup (l : List (GoString × β)) (k : GoString) (v : β)
    (hnodup : (l.map Prod.fst).Nodup) (hmem : (k, v) ∈ l) :
    l.lookup k = some v := by
  induction l with
  | nil => simp at hmem
  | cons a t ih =>
    simp only [List.map_cons, List.nodup_cons] at hnodup
    rcases List.mem_cons.mp hmem with heq | hmemt
    · cases heq
      simp [List.lookup_cons]
    · have hk : (k == a.1) = false := by
        simp only [beq_eq_false_iff_ne, ne_eq]
        intro hka
        exact hnodup.1 (hka ▸ List.mem_map.mpr ⟨(k, v), hmemt, rfl⟩)
      cases a with
      | mk a1 a2 =>
        simp only [List.lookup_cons, hk]
        exact ih hnodup.2 hmemt

end AssocHelpers

/-- foldlMethodSelect characterizes the method-selection loop of the
server-side SOCKS5 negotiation: starting from any accumulator, the result
is 0 exactly when 0 occurs among the offered methods. -/
theorem foldlMethodSelect (l : List Nat) (a : Nat) :
    l.foldl (fun m x => if x = 0 then 0 else m) a = if 0 ∈ l then 0 else a := by
  induction l generalizing a with
  | nil => simp
  | cons x t ih =>
    by_cases hx : x = 0
    · subst hx
      simp [ih]
    · have hx2 : ¬ (0 = x) := fun h => hx h.symm
      simp [hx, hx2, ih]

/-- C3. The specification states that after sending CONNECT the dialer
reads VER, REP, RSV, ATYP and then consumes the BND.ADDR and BND.PORT
bytes according to ATYP, leaving the stream positioned after the reply.
The source reads only the four fixed bytes: on a successful IPv4 reply
the six BND bytes are left unconsumed on the stream, as this evaluation
of the embedded handshake shows. -/
theorem socks5HandshakeLeavesBndUnread :
    socks5Handshake [] (gs ("example.com:80"))
        ([5, 0] ++ [5, 0, 0, 1] ++ [0, 0, 0, 0, 0, 80]) =
      ([[5, 1, 0], [5, 1, 0, 3, 11] ++ gs ("example.com") ++ [0, 80]],
       .ok [0, 0, 0, 0, 0, 80]) ∧ ([0, 0, 0, 0, 0, 80] : List Nat) ≠ [] := by
  decide

/-- C8. If the candidate configuration of a reload iteration is invalid,
either because parsing failed or because a validation stage rejected it,
the reload leaves the chains, routing, hosts and server tables exactly as
they were. -/
theorem reloadKeepsOldOnInvalid (pacMode pacOk : Bool) (old : globalState)
    (parsed : Except String mainConfig)
    (hinv : ∀ cfg, parsed = .ok cfg → processCandidate pacMode pacOk cfg = none) :
    reloadStep pacMode pacOk old parsed = old := by
  cases parsed with
  | error e => rfl
  | ok config =>
    simp [reloadStep, hinv config rfl]

/-- emptyGlobalState is a concrete state used by witnesses. -/
def emptyGlobalState : globalState :=
  { proxychains := [], routing := [], hosts := [], servers := [] }

/-- cfgBadChain is a candidate whose only chain uses an undeclared proxy,
so the proxy cross-reference check rejects it. -/
def cfgBadChain : mainConfig :=
  { Proxies := []
    Chains := [(gs ("c"), { ProxyDns := true, TcpConnectTimeout := 1000,
                            TcpReadTimeout := 2000, Proxies := [gs ("p")] })]
    Routes := [], Servers := [], Hosts := [] }

/-- Witness for C8: reloading the concrete invalid candidate cfgBadChain
over the empty global state changes nothing. -/
theorem reloadKeepsOldOnInvalidWitness :
    reloadStep false true emptyGlobalState (.ok cfgBadChain) = emptyGlobalState :=
  reloadKeepsOldOnInvalid false true emptyGlobalState (.ok cfgBadChain)
    (fun cfg h => by cases h; decide)

/-- C9 counterexample. The claim states that when method 0 is not offered
the listener sends the two bytes 05 FF before closing; on the concrete
offer of the single method 2 the source writes nothing at all and closes,
so the written-message list is empty rather than containing 05 FF. -/
theorem socks5NegotiateNoFfCounterexample :
    socks5Negotiate [5, 1, 2] =
      ([], .error ("no accepted methods proposed by the client")) ∧
    ([] : List (List Nat)) ≠ [[5, 255]] := by
  decide

/-- C9 amended. On a well-formed method offer, the listener selects
method 0 and replies 05 00 when 0 is offered; when 0 is not offered it
closes the connection without writing anything. -/
theorem socks5NegotiateAmended (n : Nat) (methods rest : List Nat)
    (hn : methods.length = n) :
    (0 ∈ methods →
      socks5Negotiate (5 :: n :: (methods ++ rest)) = ([[5, 0]], .ok rest)) ∧
    (0 ∉ methods →
      socks5Negotiate (5 :: n :: (methods ++ rest)) =
        ([], .error ("no accepted methods proposed by the client"))) := by
  have hread2 : readFull (5 :: n :: (methods ++ rest)) 2 =
      .ok ([5, n], methods ++ rest) := by
    simp [readFull]
  have hreadn : readFull (methods ++ rest) n = .ok (methods, rest) := by
    subst hn
    simp [readFull, List.take_left, List.drop_left]
  constructor
  · intro hmem
    simp [socks5Negotiate, hread2, hreadn, foldlMethodSelect, hmem]
  · intro hmem
    simp [socks5Negotiate, hread2, hreadn, foldlMethodSelect, hmem]

/-- Witness for C9: the amended theorem applied to the concrete offers
of methods 0 and 2, and of method 2 alone. -/
theorem socks5NegotiateAmendedWitness :
    socks5Negotiate [5, 2, 0, 2] = ([[5, 0]], .ok []) ∧
    socks5Negotiate [5, 1, 2] =
      ([], .error ("no accepted methods proposed by the client")) :=
  ⟨(socks5NegotiateAmended 2 [0, 2] [] (by decide)).1 (by decide),
   (socks5NegotiateAmended 1 [2] [] (by decide)).2 (by decide)⟩

/-- C10. An address whose host is no IP and longer than 255 bytes is
still encoded successfully as a DOMAIN address: the one-byte length
prefix is the Go conversion byte(len(host)), that is the length modulo
256, and it therefore differs from the true length. -/
theorem stringToAddrLongDomainWrap (addr host port : GoString) (p : Int)
    (hsplit : splitHostPort addr = .ok (host, port))
    (hnoip : parseIP host = none)
    (hlen : 255 < host.length)
    (hport : atoi port = .ok p) :
    stringToAddr addr =
      .ok ((host.length % 256) :: host ++ [uint16Of p / 256, uint16Of p % 256], 3) ∧
    host.length % 256 ≠ host.length := by
  constructor
  · simp [stringToAddr, hsplit, hnoip, hport]
  · have : host.length % 256 < 256 := Nat.mod_lt _ (by norm_num)
    omega

/-- longHostW is a concrete 260-byte host used by the C10 witness. -/
def longHostW : GoString := List.replicate 260 97

/-- Witness for C10: the 260-byte host of letters encodes as a DOMAIN
address whose length byte is 4. -/
theorem stringToAddrLongDomainWrapWitness :
    stringToAddr (longHostW ++ 58 :: gs ("80")) =
      .ok (4 :: longHostW ++ [0, 80], 3) ∧ (4 : Nat) ≠ 260 := by
  have h := stringToAddrLongDomainWrap (longHostW ++ 58 :: gs ("80")) longHostW
    (gs ("80")) 80 (by decide) (by decide) (by decide) (by decide)
  constructor
  · have h1 := h.1
    simpa using h1
  · decide

/-- addImplicitChainsSome inverts the first reload stage: success means no
proxy name collided with an explicit chain name, and the result is the
input configuration with the implicit chains appended to the chains map. -/
theorem addImplicitChainsSome (config cfg0 : mainConfig)
    (h : addImplicitChains config = some cfg0) :
    config.Proxies.any (fun q => (config.Chains.map Prod.fst).contains q.1) = false ∧
    cfg0 = { config with Chains := (config.Chains ++
      config.Proxies.map (fun q => (q.1, implicitChainDesc q.1))) } := by
  unfold addImplicitChains at h
  by_cases hc : config.Proxies.any (fun q => (config.Chains.map Prod.fst).contains q.1)
  · rw [if_pos hc] at h
    cases h
  · rw [if_neg hc] at h
    refine ⟨by simpa using hc, ?_⟩
    exact (Option.some.inj h).symm

/-- processCandidateSome: an accepted candidate is exactly the output of
the implicit-chain stage; the later stages only test it. -/
theorem processCandidateSome (pacMode pacOk : Bool) (config cfg : mainConfig)
    (h : processCandidate pacMode pacOk config = some cfg) :
    addImplicitChains config = some cfg := by
  unfold processCandidate at h
  cases haic : addImplicitChains config with
  | none => rw [haic] at h; cases h
  | some cfg0 =>
    rw [haic] at h
    split_ifs at h <;> simp_all

/-- lookupImplicitChains: looking up a declared proxy name in the built
form of the implicit-chain section gives the default single-proxy chain
with that proxy looked up in the proxies map m. -/
theorem lookupImplicitChains (proxies : List (GoString × proxyVal))
    (m : List (GoString × proxyVal)) (p : GoString)
    (hp : p ∈ proxies.map Prod.fst) :
    ((proxies.map (fun q => (q.1, implicitChainDesc q.1))).map
        (fun c => (c.1,
          ({ proxyDns := c.2.ProxyDns, tcpConnectTimeout := c.2.TcpConnectTimeout,
             tcpReadTimeout := c.2.TcpReadTimeout,
             proxies := c.2.Proxies.map (fun pn => m.lookup pn) } : proxyChain)))).lookup p =
      some { proxyDns := true, tcpConnectTimeout := 1000, tcpReadTimeout := 2000,
             proxies := [m.lookup p] } := by
  induction proxies with
  | nil => simp at hp
  | cons a t ih =>
    by_cases hk : p = a.1
    · subst hk
      simp [List.lookup_cons, implicitChainDesc]
    · have hbeq : (p == a.1) = false := by
        simp only [beq_eq_false_iff_ne, ne_eq]
        exact hk
      simp only [List.map_cons, List.lookup_cons, hbeq]
      apply ih
      rcases List.mem_map.mp hp with ⟨q, hq, hq2⟩
      rcases List.mem_cons.mp hq with rfl | hqt
      · exact absurd hq2.symm hk
      · exact List.mem_map.mpr ⟨q, hqt, hq2⟩

/-- C6. In an accepted configuration, every declared proxy name p resolves
in the built chains map to the implicit single-proxy chain over p with
proxyDns true and timeouts 1000 and 2000 milliseconds; and a candidate
declaring an explicit chain named like a declared proxy is rejected. -/
theorem implicitChainsTheorem (pacMode pacOk : Bool) (config cfg : mainConfig)
    (hnodup : (config.Proxies.map Prod.fst).Nodup) :
    (processCandidate pacMode pacOk config = some cfg →
      ∀ p v, (p, v) ∈ config.Proxies →
        (buildProxyChains cfg).lookup p =
          some { proxyDns := true, tcpConnectTimeout := 1000,
                 tcpReadTimeout := 2000, proxies := [some v] }) ∧
    (∀ p v, (p, v) ∈ config.Proxies → p ∈ config.Chains.map Prod.fst →
      processCandidate pacMode pacOk config = none) := by
  constructor
  · intro hacc p v hmem
    have haic := processCandidateSome pacMode pacOk config cfg hacc
    obtain ⟨hnocol, hcfg⟩ := addImplicitChainsSome config cfg haic
    have hpkeys : p ∈ config.Proxies.map Prod.fst :=
      List.mem_map.mpr ⟨(p, v), hmem, rfl⟩
    have hnotin : p ∉ config.Chains.map Prod.fst := by
      intro hin
      have h2 := (List.any_eq_false.mp hnocol) (p, v) hmem
      simp only [List.contains_eq_any_beq] at h2
      apply h2
      simp only [List.any_eq_true]
      exact ⟨p, hin, by simp⟩
    rw [hcfg]
    unfold buildProxyChains
    simp only [List.map_append]
    rw [lookupAppendRight]
    · have hlook := lookupImplicitChains config.Proxies config.Proxies p hpkeys
      have hv : config.Proxies.lookup p = some v :=
        lookupOfNodup config.Proxies p v hnodup hmem
      simpa [hv] using hlook
    · simpa [List.map_map, Function.comp] using hnotin
  · intro p v hmem hin
    have hany : config.Proxies.any
        (fun q => (config.Chains.map Prod.fst).contains q.1) = true := by
      refine List.any_eq_true.mpr ⟨(p, v), hmem, ?_⟩
      simpa using hin
    have haddnone : addImplicitChains config = none := by
      unfold addImplicitChains
      exact if_pos hany
    simp [processCandidate, haddnone]

/-- proxyValW is a concrete proxy value used by witnesses. -/
def proxyValW : proxyVal :=
  { prot := gs ("socks5"), host := gs ("1.2.3.4"), port := gs ("1080"),
    user := [], pass := [] }

/-- cfgOneProxy declares one proxy and nothing else. -/
def cfgOneProxy : mainConfig :=
  { Proxies := [(gs ("p1"), proxyValW)], Chains := [], Routes := [],
    Servers := [], Hosts := [] }

/-- cfgProxyChainClash declares one proxy and an explicit chain of the
same name. -/
def cfgProxyChainClash : mainConfig :=
  { Proxies := [(gs ("p1"), proxyValW)]
    Chains := [(gs ("p1"), implicitChainDesc (gs ("p1")))]
    Routes := [], Servers := [], Hosts := [] }

/-- Witness for C6: the accepted one-proxy configuration yields the
implicit chain for p1, and the clashing configuration is rejected. -/
theorem implicitChainsTheoremWitness :
    (buildProxyChains { cfgOneProxy with
        Chains := [(gs ("p1"), implicitChainDesc (gs ("p1")))] }).lookup (gs ("p1")) =
      some { proxyDns := true, tcpConnectTimeout := 1000, tcpReadTimeout := 2000,
             proxies := [some proxyValW] } ∧
    processCandidate false true cfgProxyChainClash = none := by
  constructor
  · exact (implicitChainsTheorem false true cfgOneProxy
      { cfgOneProxy with Chains := [(gs ("p1"), implicitChainDesc (gs ("p1")))] }
      (by decide)).1 (by decide) (gs ("p1")) proxyValW (by decide)
  · exact (implicitChainsTheorem false true cfgProxyChainClash cfgProxyChainClash
      (by decide)).2 (gs ("p1")) proxyValW (by decide) (by decide)

/-- fwdServerW is a concrete forward listener whose handler references
the chain named nope. -/
def fwdServerW : server :=
  { descrString := gs ("fwd://127.0.0.1:9000:nope:10.0.0.1:80")
    prot := gs ("fwd"), addr := gs ("127.0.0.1"), port := gs ("9000")
    table := []
    handler := .fwdH (gs ("10.0.0.1:80")) (gs ("nope")) }

/-- cfgFwdDangling declares one proxy and one forward listener whose
chain name nope is not declared anywhere. -/
def cfgFwdDangling : mainConfig :=
  { Proxies := [(gs ("p1"), proxyValW)], Chains := [], Routes := []
    Servers := [fwdServerW], Hosts := [] }

/-- C7 counterexample. The claim states that a configuration whose fwd
server references a chain absent from the chains section is rejected; the
concrete candidate cfgFwdDangling references the undeclared chain nope
and is nevertheless accepted, and the accepted chains map still lacks
nope. -/
theorem fwdChainUncheckedCounterexample :
    (processCandidate false true cfgFwdDangling).map
        (fun c => (c.Chains.map Prod.fst).contains (gs ("nope"))) = some false := by
  decide

/-- C7 amended. Reload validation does not inspect the chain names of
forward listeners (the source carries that check only as a TODO): an
accepted configuration may let a fwd server reference a missing chain,
and then every connection to that listener fails at the chains-map lookup
in forwardHandler.connHandle and is closed. -/
theorem fwdChainUncheckedAmended (config cfg : mainConfig) (s : server)
    (dest chain : GoString)
    (hacc : processCandidate false true config = some cfg)
    (hs : s ∈ cfg.Servers) (hh : s.handler = .fwdH dest chain)
    (hmiss : chain ∉ cfg.Chains.map Prod.fst) :
    forwardLookupChain (buildProxyChains cfg) chain = none := by
  unfold forwardLookupChain
  apply lookupEqNone
  intro hin
  apply hmiss
  unfold buildProxyChains at hin
  simpa [List.map_map, Function.comp] using hin

/-- cfgFwdDanglingAccepted is the accepted form of cfgFwdDangling, with
the implicit chain of the declared proxy added. -/
def cfgFwdDanglingAccepted : mainConfig :=
  { cfgFwdDangling with Chains := [(gs ("p1"), implicitChainDesc (gs ("p1")))] }

/-- Witness for C7: in the accepted dangling configuration the forward
handler lookup of the chain nope fails. -/
theorem fwdChainUncheckedAmendedWitness :
    forwardLookupChain (buildProxyChains cfgFwdDanglingAccepted) (gs ("nope")) = none :=
  fwdChainUncheckedAmended cfgFwdDangling cfgFwdDanglingAccepted fwdServerW
    (gs ("10.0.0.1:80")) (gs ("nope")) (by decide) (by decide) (by decide) (by decide)

/-- getRouteGoOkIff characterizes success of the block loop: the returned
route is the route of the first block evaluating to true (all blocks
before it evaluate to false), or the default route (drop when empty) when
every block evaluates to false. -/
theorem getRouteGoOkIff (rm : RegexpMatcher) (addr dflt : GoString)
    (l : List ruleBlock) (route : GoString) :
    getRouteGo rm addr dflt l = .ok route ↔
      ((∃ pre bi post, l = pre ++ bi :: post ∧
          (∀ b ∈ pre, evaluaterEval rm b.Rules addr = .ok false) ∧
          evaluaterEval rm bi.Rules addr = .ok true ∧ route = bi.Route) ∨
       ((∀ b ∈ l, evaluaterEval rm b.Rules addr = .ok false) ∧
        route = if dflt ≠ [] then dflt else gs ("drop"))) := by
  induction l with
  | nil =>
    have hnil : getRouteGo rm addr dflt [] =
        .ok (if dflt ≠ [] then dflt else gs ("drop")) := by
      unfold getRouteGo
      split_ifs <;> rfl
    rw [hnil]
    constructor
    · intro h
      exact Or.inr ⟨by simp, (Except.ok.inj h).symm⟩
    · intro h
      rcases h with ⟨pre, bi, post, habs, _⟩ | ⟨_, hr⟩
      · exact absurd habs (by simp)
      · rw [hr]
  | cons b rest ih =>
    cases hev : evaluaterEval rm b.Rules addr with
    | error e =>
      have hL : getRouteGo rm addr dflt (b :: rest) = .error ("error evaluating") := by
        unfold getRouteGo
        rw [hev]
      rw [hL]
      constructor
      · intro h
        cases h
      · intro h
        rcases h with ⟨pre, bi, post, hsplit, hpre, hbi, hr⟩ | ⟨hall, hr⟩
        · cases pre with
          | nil =>
            simp only [List.nil_append, List.cons.injEq] at hsplit
            rw [← hsplit.1, hev] at hbi
            cases hbi
          | cons p pre2 =>
            simp only [List.cons_append, List.cons.injEq] at hsplit
            have hfalse := hpre p (by simp)
            rw [← hsplit.1, hev] at hfalse
            cases hfalse
        · have hfalse := hall b (by simp)
          rw [hev] at hfalse
          cases hfalse
    | ok bv =>
      cases bv with
      | true =>
        have hL : getRouteGo rm addr dflt (b :: rest) = .ok b.Route := by
          unfold getRouteGo
          rw [hev]
        rw [hL]
        constructor
        · intro h
          exact Or.inl ⟨[], b, rest, by simp, by simp, hev, (Except.ok.inj h).symm⟩
        · intro h
          rcases h with ⟨pre, bi, post, hsplit, hpre, hbi, hr⟩ | ⟨hall, hr⟩
          · cases pre with
            | nil =>
              simp only [List.nil_append, List.cons.injEq] at hsplit
              rw [hr, ← hsplit.1]
            | cons p pre2 =>
              simp only [List.cons_append, List.cons.injEq] at hsplit
              have hfalse := hpre p (by simp)
              rw [← hsplit.1, hev] at hfalse
              cases hfalse
          · have hfalse := hall b (by simp)
            rw [hev] at hfalse
            cases hfalse
      | false =>
        have hL : getRouteGo rm addr dflt (b :: rest) = getRouteGo rm addr dflt rest := by
          conv_lhs => unfold getRouteGo
          rw [hev]
        rw [hL, ih]
        constructor
        · intro h
          rcases h with ⟨pre, bi, post, hsplit, hpre, hbi, hr⟩ | ⟨hall, hr⟩
          · refine Or.inl ⟨b :: pre, bi, post, by rw [hsplit, List.cons_append], ?_, hbi, hr⟩
            intro x hx
            rcases List.mem_cons.mp hx with rfl | hx2
            · exact hev
            · exact hpre x hx2
          · refine Or.inr ⟨?_, hr⟩
            intro x hx
            rcases List.mem_cons.mp hx with rfl | hx2
            · exact hev
            · exact hall x hx2
        · intro h
          rcases h with ⟨pre, bi, post, hsplit, hpre, hbi, hr⟩ | ⟨hall, hr⟩
          · cases pre with
            | nil =>
              simp only [List.nil_append, List.cons.injEq] at hsplit
              rw [← hsplit.1, hev] at hbi
              cases hbi
            | cons p pre2 =>
              simp only [List.cons_append, List.cons.injEq] at hsplit
              refine Or.inl ⟨pre2, bi, post, hsplit.2, ?_, hbi, hr⟩
              intro x hx
              exact hpre x (List.mem_cons_of_mem p hx)
          · exact Or.inr ⟨fun x hx => hall x (List.mem_cons_of_mem b hx), hr⟩

/-- getRouteGoErr: the block loop returns an error only when the
evaluation of one of its blocks returns an error. -/
theorem getRouteGoErr (rm : RegexpMatcher) (addr dflt : GoString)
    (l : List ruleBlock) (e : String)
    (h : getRouteGo rm addr dflt l = .error e) :
    ∃ b ∈ l, ∃ e2, evaluaterEval rm b.Rules addr = .error e2 := by
  induction l with
  | nil =>
    unfold getRouteGo at h
    by_cases hd : dflt ≠ []
    · rw [if_pos hd] at h
      cases h
    · rw [if_neg hd] at h
      cases h
  | cons b rest ih =>
    cases hev : evaluaterEval rm b.Rules addr with
    | error e2 => exact ⟨b, by simp, e2, hev⟩
    | ok bv =>
      cases bv with
      | true =>
        unfold getRouteGo at h
        rw [hev] at h
        cases h
      | false =>
        unfold getRouteGo at h
        rw [hev] at h
        rcases ih h with ⟨x, hx, e2, hx2⟩
        exact ⟨x, List.mem_cons_of_mem b hx, e2, hx2⟩

/-- C1. Lookup in a routing table built from parsed blocks evaluates the
enabled blocks in declaration order: a success is the route of the first
enabled block whose tree evaluates to true, or else the default route if
nonempty, or else drop; and an error arises only from a rule evaluation
error in an enabled block. -/
theorem getRouteFirstMatch (rm : RegexpMatcher) (dflt : GoString)
    (blocks : List ruleBlock) (addr : GoString) :
    (∀ route, getRoute rm (loadRoutingTable dflt blocks) addr = .ok route ↔
      ((∃ pre bi post,
          blocks.filter (fun b => !b.Disable) = pre ++ bi :: post ∧
          (∀ b ∈ pre, evaluaterEval rm b.Rules addr = .ok false) ∧
          evaluaterEval rm bi.Rules addr = .ok true ∧ route = bi.Route) ∨
       ((∀ b ∈ blocks.filter (fun b => !b.Disable),
          evaluaterEval rm b.Rules addr = .ok false) ∧
        route = if dflt ≠ [] then dflt else gs ("drop")))) ∧
    (∀ e, getRoute rm (loadRoutingTable dflt blocks) addr = .error e →
      ∃ b ∈ blocks.filter (fun b => !b.Disable), ∃ e2,
        evaluaterEval rm b.Rules addr = .error e2) := by
  constructor
  · intro route
    exact getRouteGoOkIff rm addr dflt (blocks.filter (fun b => !b.Disable)) route
  · intro e h
    exact getRouteGoErr rm addr dflt (blocks.filter (fun b => !b.Disable)) e h

/-- rmUnused is a regexp engine stand-in for witnesses whose rules are all
subnet rules, which never consult the engine. -/
def rmUnused : RegexpMatcher := fun _ _ => .error ("unused")

/-- blockSubnetW builds a subnet rule block routing to the given chain. -/
def blockSubnetW (cidr route : String) (dis : Bool) : ruleBlock :=
  { Comment := []
    Rules := .ruleAtom { Rule := gs ("subnet"), Variable := [],
                         Content := gs (cidr), Negate := false }
    Route := gs (route), Disable := dis }

/-- Witness for C1: on a concrete two-block table with a disabled first
block, the address 10.1.2.3:80 takes the route of the first enabled
matching block. -/
theorem getRouteFirstMatchWitness :
    getRoute rmUnused
        (loadRoutingTable (gs ("drop"))
          [blockSubnetW ("10.0.0.0/8") ("A") true,
           blockSubnetW ("0.0.0.0/0") ("B") false,
           blockSubnetW ("10.0.0.0/8") ("C") false])
        (gs ("10.1.2.3:80")) = .ok (gs ("B")) :=
  ((getRouteFirstMatch rmUnused (gs ("drop"))
      [blockSubnetW ("10.0.0.0/8") ("A") true,
       blockSubnetW ("0.0.0.0/0") ("B") false,
       blockSubnetW ("10.0.0.0/8") ("C") false]
      (gs ("10.1.2.3:80"))).1 (gs ("B"))).mpr
    (Or.inl ⟨[], blockSubnetW ("0.0.0.0/0") ("B") false,
      [blockSubnetW ("10.0.0.0/8") ("C") false],
      by decide, by decide, by decide, by decide⟩)

/-- negateRule flips the negate flag of an atomic rule; this is the only
negation the rule language has. -/
def negateRule (r : rule) : rule := { r with Negate := !r.Negate }

/-- evalWF states that a rule tree lies in the range of the data model and
carries no regexp or CIDR error for the given address: every atom kind is
regexp or subnet, every regexp variable selector is known and the engine
accepts the pattern on the selected input, every subnet content parses as
CIDR, and every combo operator is a conjunction or disjunction spelling. -/
def evalWF (rm : RegexpMatcher) (host port addr : GoString) : evaluater → Prop
  | .ruleAtom r =>
    (r.Rule = gs ("regexp") ∧
      ((r.Variable = gs ("host") ∧ ∃ b, rm r.Content host = .ok b) ∨
       (r.Variable = gs ("port") ∧ ∃ b, rm r.Content port = .ok b) ∨
       (r.Variable = gs ("addr") ∧ ∃ b, rm r.Content addr = .ok b))) ∨
    (r.Rule = gs ("subnet") ∧ ∃ net, parseCIDR r.Content = .ok net)
  | .ruleCombo r1 op r2 =>
    evalWF rm host port addr r1 ∧ evalWF rm host port addr r2 ∧
      (op ∈ andOps ∨ op ∈ orOps)

/-- selectVariable abbreviates the variable dispatch of a regexp rule. -/
def selectVariable (v host port addr : GoString) : Except String GoString :=
  if v = gs ("host") then .ok host
  else if v = gs ("port") then .ok port
  else if v = gs ("addr") then .ok addr
  else .error ("unknown variable")

/-- ruleEvaluateRegexpShape reduces the evaluation of a regexp atom on a
splittable address to variable selection followed by the engine call and
the negate XOR. -/
theorem ruleEvaluateRegexpShape (rm : RegexpMatcher) (r : rule)
    (addr host port : GoString)
    (hsplit : splitHostPort addr = .ok (host, port))
    (hre : r.Rule = gs ("regexp")) :
    ruleEvaluate rm r addr =
      match selectVariable r.Variable host port addr with
      | .error e => .error e
      | .ok v =>
        match rm r.Content v with
        | .error _ => .error ("error matching regexp")
        | .ok m => .ok (r.Negate != m) := by
  simp [ruleEvaluate, selectVariable, hsplit, hre]

/-- ruleEvaluateSubnetShape reduces the evaluation of a subnet atom on a
splittable address to the IPv4 test, the CIDR parse and the membership
XOR. -/
theorem ruleEvaluateSubnetShape (rm : RegexpMatcher) (r : rule)
    (addr host port : GoString)
    (hsplit : splitHostPort addr = .ok (host, port))
    (hsub : r.Rule = gs ("subnet")) :
    ruleEvaluate rm r addr =
      match (parseIP host).bind to4 with
      | none => .ok false
      | some hostIPv4 =>
        match parseCIDR r.Content with
        | .error _ => .error ("error parsing CIDR")
        | .ok net => .ok (r.Negate != ipnetContains net.1 net.2 hostIPv4) := by
  have hnre : ¬ (r.Rule = gs ("regexp")) := by
    rw [hsub]
    decide
  simp only [ruleEvaluate, hsplit, hnre, hsub, if_neg, if_pos]
  cases (parseIP host).bind to4 with
  | none => rfl
  | some h4 =>
    cases parseCIDR r.Content with
    | error e => rfl
    | ok net => rfl

/-- evalTotal: on a splittable address, a well-formed rule tree always
evaluates to a boolean and never to an error. -/
theorem evalTotal (rm : RegexpMatcher) (addr host port : GoString)
    (hsplit : splitHostPort addr = .ok (host, port)) :
    ∀ R : evaluater, evalWF rm host port addr R →
      ∃ b, evaluaterEval rm R addr = .ok b := by
  intro R
  induction R with
  | ruleAtom r =>
    intro hwf
    rcases hwf with ⟨hre, hvar⟩ | ⟨hsub, net, hcidr⟩
    · have hshape := ruleEvaluateRegexpShape rm r addr host port hsplit hre
      have hsel : ∃ w, selectVariable r.Variable host port addr = .ok w ∧
          ∃ b, rm r.Content w = .ok b := by
        rcases hvar with ⟨hv, b, hrm⟩ | ⟨hv, b, hrm⟩ | ⟨hv, b, hrm⟩
        · exact ⟨host, by simp [selectVariable, hv], b, hrm⟩
        · exact ⟨port, by
            simp [selectVariable, hv,
              show ¬ (gs ("port") = gs ("host")) from by decide], b, hrm⟩
        · exact ⟨addr, by
            simp [selectVariable, hv,
              show ¬ (gs ("addr") = gs ("host")) from by decide,
              show ¬ (gs ("addr") = gs ("port")) from by decide], b, hrm⟩
      obtain ⟨w, hw, b, hrm⟩ := hsel
      refine ⟨r.Negate != b, ?_⟩
      show ruleEvaluate rm r addr = _
      rw [hshape]
      simp only [hw, hrm]
    · have hshape := ruleEvaluateSubnetShape rm r addr host port hsplit hsub
      cases hip : (parseIP host).bind to4 with
      | none =>
        refine ⟨false, ?_⟩
        show ruleEvaluate rm r addr = _
        rw [hshape]
        simp only [hip]
      | some h4 =>
        refine ⟨r.Negate != ipnetContains net.1 net.2 h4, ?_⟩
        show ruleEvaluate rm r addr = _
        rw [hshape]
        simp only [hip, hcidr]
  | ruleCombo r1 op r2 ih1 ih2 =>
    intro hwf
    obtain ⟨hwf1, hwf2, hop⟩ := hwf
    obtain ⟨b1, h1⟩ := ih1 hwf1
    obtain ⟨b2, h2⟩ := ih2 hwf2
    rcases hop with hop | hop
    · exact ⟨b1 && b2, by simp [evaluaterEval, h1, h2, hop]⟩
    · have hnand : op ∉ andOps := by
        simp only [orOps] at hop
        fin_cases hop <;> decide
      exact ⟨b1 || b2, by simp [evaluaterEval, h1, h2, hop, hnand]⟩

/-- boolNotBne: negating the left operand of a boolean difference negates
the result. -/
theorem boolNotBne (x y : Bool) : ((!x) != y) = !(x != y) := by
  cases x <;> cases y <;> rfl

/-- atomNegateFlip: flipping the negate flag of an atom negates its
evaluation, for regexp atoms always and for subnet atoms whenever the
host parses as IPv4. -/
theorem atomNegateFlip (rm : RegexpMatcher) (r : rule)
    (addr host port : GoString) (b : Bool)
    (hsplit : splitHostPort addr = .ok (host, port))
    (hkind : r.Rule = gs ("regexp") ∨
      (r.Rule = gs ("subnet") ∧ ((parseIP host).bind to4).isSome))
    (hb : evaluaterEval rm (.ruleAtom r) addr = .ok b) :
    evaluaterEval rm (.ruleAtom (negateRule r)) addr = .ok (!b) := by
  rcases hkind with hre | ⟨hsub, hip⟩
  · have hshape := ruleEvaluateRegexpShape rm r addr host port hsplit hre
    have hshape2 := ruleEvaluateRegexpShape rm (negateRule r) addr host port hsplit hre
    rw [show evaluaterEval rm (.ruleAtom r) addr = ruleEvaluate rm r addr from rfl,
      hshape] at hb
    rw [show evaluaterEval rm (.ruleAtom (negateRule r)) addr =
      ruleEvaluate rm (negateRule r) addr from rfl, hshape2]
    dsimp only [negateRule]
    cases hw : selectVariable r.Variable host port addr with
    | error e => simp [hw] at hb
    | ok w =>
      cases hrm : rm r.Content w with
      | error e => simp [hw, hrm] at hb
      | ok m =>
        simp only [hw, hrm, Except.ok.injEq] at hb
        simp only [hw, hrm]
        rw [← hb, boolNotBne]
  · have hre2 : (negateRule r).Rule = gs ("subnet") := hsub
    have hshape := ruleEvaluateSubnetShape rm r addr host port hsplit hsub
    have hshape2 := ruleEvaluateSubnetShape rm (negateRule r) addr host port hsplit hre2
    obtain ⟨h4, hip2⟩ := Option.isSome_iff_exists.mp hip
    rw [show evaluaterEval rm (.ruleAtom r) addr = ruleEvaluate rm r addr from rfl,
      hshape] at hb
    rw [show evaluaterEval rm (.ruleAtom (negateRule r)) addr =
      ruleEvaluate rm (negateRule r) addr from rfl, hshape2]
    dsimp only [negateRule]
    cases hc : parseCIDR r.Content with
    | error e => simp [hip2, hc] at hb
    | ok net =>
      simp only [hip2, hc, Except.ok.injEq] at hb
      simp only [hip2, hc]
      rw [← hb, boolNotBne]

/-- C2 counterexample. The claim asserts the negate flip also for subnet
rules on a non-IPv4 host; the source returns false there before the
negate flag is consulted, so both the rule and its negation evaluate to
false on foo:80. -/
theorem evaluateNegateSubnetCounterexample :
    evaluaterEval rmUnused
        (.ruleAtom { Rule := gs ("subnet"), Variable := [],
                     Content := gs ("10.0.0.0/8"), Negate := false })
        (gs ("foo:80")) = .ok false ∧
    evaluaterEval rmUnused
        (.ruleAtom (negateRule { Rule := gs ("subnet"), Variable := [],
                                 Content := gs ("10.0.0.0/8"), Negate := false }))
        (gs ("foo:80")) = .ok false ∧
    (Except.ok false : Except String Bool) ≠ .ok (!false) := by
  decide

/-- C2 amended. On a splittable address, a well-formed rule tree without
regexp or CIDR errors evaluates totally to a boolean; and flipping the
negate flag of an atom negates its result for regexp atoms, and for
subnet atoms whenever the host is a valid IPv4 — a subnet atom on a
non-IPv4 host returns false regardless of the negate flag. -/
theorem evaluateTotalNegateAmended (rm : RegexpMatcher)
    (addr host port : GoString)
    (hsplit : splitHostPort addr = .ok (host, port)) :
    (∀ R : evaluater, evalWF rm host port addr R →
      ∃ b, evaluaterEval rm R addr = .ok b) ∧
    (∀ (r : rule) (b : Bool),
      (r.Rule = gs ("regexp") ∨
        (r.Rule = gs ("subnet") ∧ ((parseIP host).bind to4).isSome)) →
      evaluaterEval rm (.ruleAtom r) addr = .ok b →
      evaluaterEval rm (.ruleAtom (negateRule r)) addr = .ok (!b)) ∧
    (∀ (r : rule),
      r.Rule = gs ("subnet") → (parseIP host).bind to4 = none →
      evaluaterEval rm (.ruleAtom r) addr = .ok false) := by
  refine ⟨evalTotal rm addr host port hsplit, ?_, ?_⟩
  · intro r b hkind hb
    exact atomNegateFlip rm r addr host port b hsplit hkind hb
  · intro r hsub hip
    have hshape := ruleEvaluateSubnetShape rm r addr host port hsplit hsub
    show ruleEvaluate rm r addr = _
    rw [hshape]
    simp only [hip]

/-- Witness for C2: the amended theorem applied to a concrete subnet rule
on 10.1.2.3:80, whose negation flips true to false. -/
theorem evaluateTotalNegateAmendedWitness :
    evaluaterEval rmUnused
        (.ruleAtom (negateRule { Rule := gs ("subnet"), Variable := [],
                                 Content := gs ("10.0.0.0/8"), Negate := false }))
        (gs ("10.1.2.3:80")) = .ok (!true) :=
  (evaluateTotalNegateAmended rmUnused (gs ("10.1.2.3:80")) (gs ("10.1.2.3"))
      (gs ("80")) (by decide)).2.1
    { Rule := gs ("subnet"), Variable := [], Content := gs ("10.0.0.0/8"),
      Negate := false }
    true (by decide) (by decide)

/-- readFullOk computes a successful full read. -/
theorem readFullOk (input : List Nat) (n : Nat) (h : n ≤ input.length) :
    readFull input n = .ok (input.take n, input.drop n) := by
  simp [readFull, h]

/-- readFullErr computes a truncated full read. -/
theorem readFullErr (input : List Nat) (n : Nat) (h : input.length < n) :
    readFull input n = .error ("unexpected EOF") := by
  have h2 : ¬ (n ≤ input.length) := by omega
  simp [readFull, h2]

/-- existsTwoHead decomposes a list of length at least two. -/
theorem existsTwoHead (l : List Nat) (h : 2 ≤ l.length) :
    ∃ a b t, l = a :: b :: t := by
  cases l with
  | nil => simp at h
  | cons a l2 =>
    cases l2 with
    | nil => simp at h
    | cons b t => exact ⟨a, b, t, rfl⟩

/-- C5 counterexample. The claim states the decoder fails on a DOMAIN
address whose length byte is 0; on the concrete stream 00 00 50 with
ATYP 3 the source succeeds, returning the empty host joined with port 80,
because io.ReadFull on an empty buffer returns no error. -/
theorem addrToStringDomainZeroCounterexample :
    addrToString [0, 0, 80] 3 = .ok (gs (":80"), []) := by
  decide

/-- C5 amended. The decoder fails exactly on an unknown ATYP or a
truncated stream; a DOMAIN length byte of 0 is not an error and yields
the empty host. In the remaining cases it returns the decoded host:port:
the rendered IP of the 4 or 16 address bytes, or the raw domain bytes,
joined with the big-endian port that follows. -/
theorem addrToStringCasesAmended (input : List Nat) :
    (∀ atyp, atyp ∉ ([1, 3, 4] : List Nat) →
      addrToString input atyp = .error ("invalid atyp value")) ∧
    ((input.length < 6 → addrToString input 1 = .error ("unexpected EOF")) ∧
     (6 ≤ input.length → ∃ hi lo rest2, input.drop 4 = hi :: lo :: rest2 ∧
        addrToString input 1 =
          .ok (joinHostPort (ipString (input.take 4)) (itoa (256 * hi + lo)),
               rest2))) ∧
    ((input.length < 18 → addrToString input 4 = .error ("unexpected EOF")) ∧
     (18 ≤ input.length → ∃ hi lo rest2, input.drop 16 = hi :: lo :: rest2 ∧
        addrToString input 4 =
          .ok (joinHostPort (ipString (input.take 16)) (itoa (256 * hi + lo)),
               rest2))) ∧
    ((input = [] → addrToString input 3 = .error ("unexpected EOF")) ∧
     (∀ n rest, input = n :: rest →
       (rest.length < n + 2 → addrToString input 3 = .error ("unexpected EOF")) ∧
       (n + 2 ≤ rest.length → ∃ hi lo rest2, rest.drop n = hi :: lo :: rest2 ∧
          addrToString input 3 =
            .ok (joinHostPort (rest.take n) (itoa (256 * hi + lo)), rest2)))) := by
  refine ⟨?_, ⟨?_, ?_⟩, ⟨?_, ?_⟩, ⟨?_, ?_⟩⟩
  · intro atyp h
    simp only [List.mem_cons, List.not_mem_nil, or_false, not_or] at h
    obtain ⟨h1, h3, h4⟩ := h
    simp [addrToString, h1, h3, h4]
  · intro hlen
    by_cases h4 : 4 ≤ input.length
    · have := readFullErr (input.drop 4) 2 (by simp; omega)
      simp [addrToString, readFullOk input 4 h4, this]
    · simp [addrToString, readFullErr input 4 (by omega)]
  · intro hlen
    obtain ⟨hi, lo, t, hd⟩ := existsTwoHead (input.drop 4) (by simp; omega)
    refine ⟨hi, lo, t, hd, ?_⟩
    have hp : readFull (input.drop 4) 2 = .ok ([hi, lo], t) := by
      rw [hd, readFullOk (hi :: lo :: t) 2 (by simp)]
      rfl
    simp [addrToString, readFullOk input 4 (by omega), hp]
  · intro hlen
    by_cases h16 : 16 ≤ input.length
    · have := readFullErr (input.drop 16) 2 (by simp; omega)
      simp [addrToString, readFullOk input 16 h16, this]
    · simp [addrToString, readFullErr input 16 (by omega)]
  · intro hlen
    obtain ⟨hi, lo, t, hd⟩ := existsTwoHead (input.drop 16) (by simp; omega)
    refine ⟨hi, lo, t, hd, ?_⟩
    have hp : readFull (input.drop 16) 2 = .ok ([hi, lo], t) := by
      rw [hd, readFullOk (hi :: lo :: t) 2 (by simp)]
      rfl
    simp [addrToString, readFullOk input 16 (by omega), hp]
  · intro hnil
    subst hnil
    decide
  · intro n rest hcons
    subst hcons
    constructor
    · intro hlen
      by_cases hn : n ≤ rest.length
      · have := readFullErr (rest.drop n) 2 (by simp; omega)
        simp [addrToString, readFullOk rest n hn, this]
      · simp [addrToString, readFullErr rest n (by omega)]
    · intro hlen
      obtain ⟨hi, lo, t, hd⟩ := existsTwoHead (rest.drop n) (by simp; omega)
      refine ⟨hi, lo, t, hd, ?_⟩
      have hp : readFull (rest.drop n) 2 = .ok ([hi, lo], t) := by
        rw [hd, readFullOk (hi :: lo :: t) 2 (by simp)]
        rfl
      simp [addrToString, readFullOk rest n (by omega), hp]

/-- Witness for C5: the amended theorem applied to the concrete IPv4
stream 1 2 3 4 0 80 decodes to 1.2.3.4:80 with nothing left over. -/
theorem addrToStringCasesAmendedWitness :
    addrToString [1, 2, 3, 4, 0, 80] 1 = .ok (gs ("1.2.3.4:80"), []) := by
  obtain ⟨hi, lo, rest2, hd, heq⟩ :=
    (addrToStringCasesAmended [1, 2, 3, 4, 0, 80]).2.1.2 (by decide)
  simp only [List.drop_succ_cons, List.drop_zero] at hd
  cases hd
  rw [heq]
  decide

section DecimalLemmas

/-- isDigitBounds extracts the byte bounds of a digit. -/
theorem isDigitBounds (c : Nat) (h : isDigit c = true) : 48 ≤ c ∧ c ≤ 57 := by
  simpa [isDigit] using h

/-- foldlDigitsVal relates the digit fold of the Go source to the Mathlib
ofDigits value of the reversed digit list. -/
theorem foldlDigitsVal (s : GoString) (a : Nat) :
    s.foldl (fun x c => x * 10 + (c - 48)) a =
      a * 10 ^ s.length + Nat.ofDigits 10 ((s.map (fun c => c - 48)).reverse) := by
  induction s generalizing a with
  | nil => simp
  | cons c t ih =>
    simp only [List.foldl_cons, ih, List.map_cons, List.reverse_cons,
      Nat.ofDigits_append, Nat.ofDigits_singleton, List.length_cons,
      List.length_reverse, List.length_map]
    ring

/-- digitsValOfDigits is the fold-free form of digitsVal. -/
theorem digitsValOfDigits (s : GoString) :
    digitsVal s = Nat.ofDigits 10 ((s.map (fun c => c - 48)).reverse) := by
  have h := foldlDigitsVal s 0
  simpa [digitsVal] using h

/-- itoaEqDigits writes itoa of a nonzero value through Nat.digits. -/
theorem itoaEqDigits (n : Nat) (hn : n ≠ 0) :
    itoa n = ((Nat.digits 10 n).map (fun d => d + 48)).reverse := by
  simp only [itoa, hn, if_neg]
  rw [itoaAux_eq_digits (n + 1) n (by omega)]
  simp [hn]

/-- itoaNeNil: a rendered number is never the empty string. -/
theorem itoaNeNil (n : Nat) : itoa n ≠ [] := by
  by_cases hn : n = 0
  · subst hn
    decide
  · rw [itoaEqDigits n hn]
    simp [Nat.digits_ne_nil_iff_ne_zero, hn]

/-- itoaAllDigits: a rendered number consists of digit bytes. -/
theorem itoaAllDigits (n : Nat) : ∀ c ∈ itoa n, isDigit c := by
  by_cases hn : n = 0
  · subst hn
    decide
  · rw [itoaEqDigits n hn]
    intro c hc
    simp only [List.mem_reverse, List.mem_map] at hc
    obtain ⟨d, hd, rfl⟩ := hc
    have hlt : d < 10 := Nat.digits_lt_base (by norm_num) hd
    simp [isDigit]
    omega

/-- digitsValItoa: rendering then reading a number is the identity. -/
theorem digitsValItoa (n : Nat) : digitsVal (itoa n) = n := by
  by_cases hn : n = 0
  · subst hn
    decide
  · rw [itoaEqDigits n hn, digitsValOfDigits]
    rw [List.map_reverse, List.reverse_reverse, List.map_map]
    have hmap : ∀ d ∈ Nat.digits 10 n,
        ((fun c => c - 48) ∘ fun d => d + 48) d = id d := by
      intro d hd
      simp
    rw [List.map_congr_left hmap, List.map_id]
    exact Nat.ofDigits_digits 10 n

/-- itoaCanonical: a nonempty all-digit string without a leading zero is
the rendering of its own value. -/
theorem itoaCanonical (s : GoString) (hne : s ≠ [])
    (hdig : ∀ c ∈ s, isDigit c)
    (hlead : s = [48] ∨ s.head? ≠ some 48) :
    itoa (digitsVal s) = s := by
  rcases hlead with rfl | hhead
  · decide
  · obtain ⟨c, t, rfl⟩ : ∃ c t, s = c :: t := by
      cases s with
      | nil => exact absurd rfl hne
      | cons c t => exact ⟨c, t, rfl⟩
    have hc : isDigit c := hdig c (by simp)
    have hcb := isDigitBounds c hc
    have hc48 : c ≠ 48 := by
      intro h
      exact hhead (by simp [h])
    have hL10 : ∀ d ∈ (((c :: t).map (fun x => x - 48)).reverse), d < 10 := by
      intro d hd
      simp only [List.mem_reverse, List.mem_map] at hd
      obtain ⟨x, hx, rfl⟩ := hd
      have := isDigitBounds x (hdig x hx)
      omega
    have hLne : (((c :: t).map (fun x => x - 48)).reverse) ≠ [] := by simp
    have hlast : ∀ h : (((c :: t).map (fun x => x - 48)).reverse) ≠ [],
        (((c :: t).map (fun x => x - 48)).reverse).getLast h ≠ 0 := by
      intro h
      have h1 : (((c :: t).map (fun x => x - 48)).reverse).getLast? =
          some (c - 48) := by
        rw [List.getLast?_reverse]
        simp
      rw [List.getLast?_eq_getLast _ h] at h1
      have h2 := Option.some.inj h1
      rw [h2]
      omega
    have hdigs := Nat.digits_ofDigits 10 (by norm_num)
      (((c :: t).map (fun x => x - 48)).reverse) hL10 hlast
    have hval := digitsValOfDigits (c :: t)
    have hn0 : digitsVal (c :: t) ≠ 0 := by
      intro h0
      rw [h0] at hval
      rw [← hval] at hdigs
      simp only [Nat.digits_zero] at hdigs
      exact hLne hdigs.symm
    rw [itoaEqDigits _ hn0, hval, hdigs]
    rw [List.map_reverse, List.reverse_reverse, List.map_map]
    rw [List.map_congr_left (fun a ha => ?_), List.map_id]
    have := isDigitBounds a (hdig a ha)
    simp
    omega

/-- atoiItoa: Atoi inverts Itoa on values inside the int64 range. -/
theorem atoiItoa (p : Nat) (hp : p < 2 ^ 63) : atoi (itoa p) = .ok ((p : Nat) : Int) := by
  obtain ⟨c, t, hs⟩ : ∃ c t, itoa p = c :: t := by
    cases hi : itoa p with
    | nil => exact absurd hi (itoaNeNil p)
    | cons c t => exact ⟨c, t, rfl⟩
  have hc := isDigitBounds c (itoaAllDigits p c (by rw [hs]; simp))
  have h43 : ¬ ((itoa p).head? = some 43) := by
    rw [hs]
    simp
    omega
  have h45 : ¬ ((itoa p).head? = some 45) := by
    rw [hs]
    simp
    omega
  have hall : (itoa p).all isDigit = true := by
    rw [List.all_eq_true]
    exact itoaAllDigits p
  have hble : ¬ (2 ^ 63 ≤ p) := by omega
  simp [atoi, h43, h45, atoiDigits, itoaNeNil p, hall, digitsValItoa, hble]
  omega

end DecimalLemmas

section IndexLemmas

/-- indexByteNone: a byte that does not occur is not found. -/
theorem indexByteNone (s : GoString) (b : Nat) (h : b ∉ s) :
    indexByte s b = none := by
  induction s with
  | nil => rfl
  | cons c t ih =>
    simp only [List.mem_cons, not_or] at h
    have hc : ¬ (c = b) := fun hcb => h.1 hcb.symm
    simp [indexByte, hc, ih h.2]

/-- indexByteAppendSep: the first occurrence of a separator byte absent
from the first part is just after that part. -/
theorem indexByteAppendSep (l1 l2 : GoString) (b : Nat) (h : b ∉ l1) :
    indexByte (l1 ++ b :: l2) b = some l1.length := by
  induction l1 with
  | nil => simp [indexByte]
  | cons c t ih =>
    simp only [List.mem_cons, not_or] at h
    have hc : ¬ (c = b) := fun hcb => h.1 hcb.symm
    simp [indexByte, hc, ih h.2]

/-- lastIndexByteAppendSep: the last occurrence of a separator byte absent
from the second part is just before that part. -/
theorem lastIndexByteAppendSep (l1 l2 : GoString) (b : Nat) (h : b ∉ l2) :
    lastIndexByte (l1 ++ b :: l2) b = some l1.length := by
  unfold lastIndexByte
  have hrev : (l1 ++ b :: l2).reverse = l2.reverse ++ b :: l1.reverse := by
    simp
  rw [hrev, indexByteAppendSep l2.reverse l1.reverse b (by simpa using h)]
  simp only [Option.some.injEq, List.length_append, List.length_cons,
    List.length_reverse]
  omega

end IndexLemmas

/-- splitHostPortAppend computes SplitHostPort on a well-formed unbracketed
address: a host free of colon and bracket bytes joined to a port free of
them as well. -/
theorem splitHostPortAppend (host port2 : GoString)
    (hh58 : 58 ∉ host) (hh91 : 91 ∉ host) (hh93 : 93 ∉ host)
    (hp58 : 58 ∉ port2) (hp91 : 91 ∉ port2) (hp93 : 93 ∉ port2) :
    splitHostPort (host ++ 58 :: port2) = .ok (host, port2) := by
  have hlast : lastIndexByte (host ++ 58 :: port2) 58 = some host.length :=
    lastIndexByteAppendSep host port2 58 hp58
  have hhead : ¬ ((host ++ 58 :: port2).head? = some 91) := by
    cases host with
    | nil => simp
    | cons c t =>
      simp only [List.cons_append, List.head?_cons, Option.some.injEq]
      intro hc
      exact hh91 (by simp [hc])
  have htake : (host ++ 58 :: port2).take host.length = host :=
    List.take_left host (58 :: port2)
  have hdrop : (host ++ 58 :: port2).drop (host.length + 1) = port2 := by
    have hda := @List.drop_append _ host (58 :: port2) 1
    simp only [List.drop_succ_cons, List.drop_zero] at hda
    exact hda
  have h1 : indexByte ((host ++ 58 :: port2).take host.length) 58 = none := by
    rw [htake]
    exact indexByteNone host 58 hh58
  have h2 : indexByte (host ++ 58 :: port2) 91 = none := by
    apply indexByteNone
    simp only [List.mem_append, List.mem_cons]
    rintro (h | h | h)
    · exact hh91 h
    · cases h
    · exact hp91 h
  have h3 : indexByte (host ++ 58 :: port2) 93 = none := by
    apply indexByteNone
    simp only [List.mem_append, List.mem_cons]
    rintro (h | h | h)
    · exact hh93 h
    · cases h
    · exact hp93 h
  have hhead2 : ¬ (host.head? = some 91) := by
    cases host with
    | nil => simp
    | cons c t =>
      simp only [List.head?_cons, Option.some.injEq]
      intro hc
      exact hh91 (by simp [hc])
  have hidx : indexByte host 58 = none := indexByteNone host 58 hh58
  unfold splitHostPort
  rw [hlast]
  simp [hhead, h1, h2, h3, htake, hdrop, hhead2, hidx]

section IPv4Canonical

/-- validOctetProps unpacks the octet validity flag. -/
theorem validOctetProps (f : GoString) (h : validOctet f = true) :
    f ≠ [] ∧ (∀ c ∈ f, isDigit c) ∧ digitsVal f ≤ 255 ∧
      (f = [48] ∨ f.head? ≠ some 48) := by
  simp only [validOctet, Bool.and_eq_true, Bool.or_eq_true, decide_eq_true_eq,
    List.all_eq_true, Bool.not_eq_true', List.isEmpty_eq_false] at h
  obtain ⟨⟨⟨hne, hall⟩, hle⟩, hlead⟩ := h
  refine ⟨hne, hall, hle, ?_⟩
  rcases hlead with hlen | hh
  · cases f with
    | nil => simp at hlen
    | cons c t =>
      have ht : t = [] := by
        simp only [List.length_cons] at hlen
        cases t with
        | nil => rfl
        | cons x y =>
          simp only [List.length_cons] at hlen
          omega
      subst ht
      by_cases hc : c = 48
      · subst hc
        exact Or.inl rfl
      · exact Or.inr (by simpa using hc)
  · exact Or.inr hh

/-- itoaOctet: a valid octet string is the rendering of its own value. -/
theorem itoaOctet (f : GoString) (h : validOctet f = true) :
    itoa (digitsVal f) = f := by
  obtain ⟨hne, hdig, _, hlead⟩ := validOctetProps f h
  exact itoaCanonical f hne hdig hlead

/-- existsFour decomposes a list of length four. -/
theorem existsFour {α : Type} (l : List α) (h : l.length = 4) :
    ∃ a b c d, l = [a, b, c, d] := by
  cases l with
  | nil =>
    simp only [List.length_nil] at h
    omega
  | cons a l1 =>
    cases l1 with
    | nil =>
      simp only [List.length_cons, List.length_nil] at h
      omega
    | cons b l2 =>
      cases l2 with
      | nil =>
        simp only [List.length_cons, List.length_nil] at h
        omega
      | cons c l3 =>
        cases l3 with
        | nil =>
          simp only [List.length_cons, List.length_nil] at h
          omega
        | cons d l4 =>
          cases l4 with
          | nil => exact ⟨a, b, c, d, rfl⟩
          | cons e l5 =>
            simp only [List.length_cons] at h
            omega

/-- interFour computes a four-part intercalation with a one-byte
separator. -/
theorem interFour (a b c d : GoString) :
    [(46 : Nat)].intercalate [a, b, c, d] =
      a ++ 46 :: (b ++ 46 :: (c ++ 46 :: d)) := by
  simp [List.intercalate, List.intersperse]

/-- parseIPv4Some unpacks a successful IPv4 parse into its four fields. -/
theorem parseIPv4Some (host : GoString) (f : List Nat)
    (h : parseIPv4 host = some f) :
    ∃ s1 s2 s3 s4, host.splitOn 46 = [s1, s2, s3, s4] ∧
      f = [digitsVal s1, digitsVal s2, digitsVal s3, digitsVal s4] ∧
      validOctet s1 ∧ validOctet s2 ∧ validOctet s3 ∧ validOctet s4 := by
  simp only [parseIPv4] at h
  by_cases hcond : (host.splitOn 46).length = 4 ∧ (host.splitOn 46).all validOctet
  · obtain ⟨s1, s2, s3, s4, hs⟩ := existsFour (host.splitOn 46) hcond.1
    have hall := hcond.2
    rw [hs] at hall
    simp only [List.all_cons, List.all_nil, Bool.and_eq_true, Bool.and_true] at hall
    refine ⟨s1, s2, s3, s4, hs, ?_, hall.1, hall.2.1, hall.2.2.1, hall.2.2.2⟩
    rw [if_pos (by simp [hcond.1, hcond.2])] at h
    rw [hs] at h
    simpa using h.symm
  · rw [if_neg ?_] at h
    · cases h
    · intro hand
      apply hcond
      simp only [Bool.and_eq_true, decide_eq_true_eq] at hand
      exact hand

/-- ip4StringParseIPv4: the rendered form of a parsed IPv4 address is the
original string, whose bytes are digits and dots with at least one dot. -/
theorem ip4StringParseIPv4 (host : GoString) (f : List Nat)
    (h : parseIPv4 host = some f) :
    ip4String f = host ∧ f.length = 4 ∧
      (∀ c ∈ host, isDigit c ∨ c = 46) ∧ 46 ∈ host := by
  obtain ⟨s1, s2, s3, s4, hsp, hf, h1, h2, h3, h4⟩ := parseIPv4Some host f h
  have hhost : host = s1 ++ 46 :: (s2 ++ 46 :: (s3 ++ 46 :: s4)) := by
    have hi := List.intercalate_splitOn host (46 : Nat)
    rw [hsp, interFour] at hi
    exact hi.symm
  refine ⟨?_, by rw [hf]; rfl, ?_, ?_⟩
  · rw [hf]
    show itoa (digitsVal s1) ++ 46 ::
        (itoa (digitsVal s2) ++ 46 :: (itoa (digitsVal s3) ++ 46 :: itoa (digitsVal s4))) =
      host
    rw [itoaOctet s1 h1, itoaOctet s2 h2, itoaOctet s3 h3, itoaOctet s4 h4]
    exact hhost.symm
  · intro x hx
    rw [hhost] at hx
    simp only [List.mem_append, List.mem_cons] at hx
    rcases hx with hx | hx | hx | hx | hx | hx | hx
    · exact Or.inl ((validOctetProps s1 h1).2.1 x hx)
    · exact Or.inr hx
    · exact Or.inl ((validOctetProps s2 h2).2.1 x hx)
    · exact Or.inr hx
    · exact Or.inl ((validOctetProps s3 h3).2.1 x hx)
    · exact Or.inr hx
    · exact Or.inl ((validOctetProps s4 h4).2.1 x hx)
  · rw [hhost]
    simp

/-- findSpecialDot: in a string of digits and dots containing a dot, the
first special byte found by the address dispatch is the dot. -/
theorem findSpecialDot (l : GoString)
    (hcls : ∀ c ∈ l, isDigit c ∨ c = 46) (hmem : 46 ∈ l) :
    l.find? (fun c => c = 46 || c = 58 || c = 37) = some 46 := by
  induction l with
  | nil => simp at hmem
  | cons c t ih =>
    rcases hcls c (by simp) with hd | hc
    · have hb := isDigitBounds c hd
      have h46 : ¬ (c = 46) := by omega
      have h58 : ¬ (c = 58) := by omega
      have h37 : ¬ (c = 37) := by omega
      rw [List.find?_cons]
      simp only [h46, h58, h37, decide_False, Bool.or_false]
      apply ih
      · intro x hx
        exact hcls x (List.mem_cons_of_mem c hx)
      · rcases List.mem_cons.mp hmem with h46m | h46m
        · omega
        · exact h46m
    · subst hc
      rw [List.find?_cons]
      simp

/-- parseIPDotted: a string accepted by the IPv4 parser is parsed by
net.ParseIP into the IPv4-mapped 16-byte form. -/
theorem parseIPDotted (host : GoString) (f : List Nat)
    (h : parseIPv4 host = some f) : parseIP host = some (v4mapped f) := by
  obtain ⟨_, _, hcls, hmem⟩ := ip4StringParseIPv4 host f h
  unfold parseIP
  rw [findSpecialDot host hcls hmem]
  simp [h]

/-- to4V4mapped: narrowing the IPv4-mapped form recovers the 4 bytes. -/
theorem to4V4mapped (a b c d : Nat) :
    to4 (v4mapped [a, b, c, d]) = some [a, b, c, d] := rfl

/-- ipString4: a 4-byte value prints in dotted decimal. -/
theorem ipString4 (a b c d : Nat) :
    ipString [a, b, c, d] = ip4String [a, b, c, d] := rfl

/-- uint16OfNat: the uint16 conversion is the identity below 65536. -/
theorem uint16OfNat (p : Nat) (hp : p < 65536) : uint16Of ((p : Nat) : Int) = p := by
  unfold uint16Of
  rw [Int.emod_eq_of_lt (by positivity) (by exact_mod_cast hp)]
  simp

end IPv4Canonical

section IPv6Canonical

/-- finishIPv6Length: the post-loop stage of the IPv6 parser only succeeds
with a full 16-byte address, given the loop invariant that the bytes
produced so far number i, with any ellipsis position at most i. -/
theorem finishIPv6Length (i : Nat) (ip : List Nat) (ell : Option Nat)
    (s : GoString) (out : List Nat)
    (hlen : ip.length = i) (hi : i ≤ 16)
    (hell : ∀ e, ell = some e → e ≤ i)
    (h : finishIPv6 i ip ell s = some out) : out.length = 16 := by
  unfold finishIPv6 at h
  by_cases hs : s ≠ []
  · rw [if_pos hs] at h
    cases h
  · rw [if_neg hs] at h
    by_cases h16 : i < 16
    · rw [if_pos h16] at h
      cases hellc : ell with
      | none => rw [hellc] at h; cases h
      | some e =>
        rw [hellc] at h
        have he : e ≤ i := hell e hellc
        have hout : out = ip.take e ++ List.replicate (16 - i) 0 ++ ip.drop e :=
          (Option.some.inj h).symm
        rw [hout]
        simp only [List.length_append, List.length_take, List.length_replicate,
          List.length_drop, hlen]
        omega
    · rw [if_neg h16] at h
      by_cases hel : ell.isSome
      · rw [if_pos hel] at h
        cases h
      · rw [if_neg hel] at h
        have hout : out = ip := (Option.some.inj h).symm
        rw [hout, hlen]
        omega

/-- parseIPv6AuxLength: the IPv6 field loop only succeeds with 16 bytes,
by the invariant that i counts the bytes built, stays even and at most
16, and bounds the ellipsis position. -/
theorem parseIPv6AuxLength (fuel : Nat) :
    ∀ (s : GoString) (i : Nat) (ip : List Nat) (ell : Option Nat) (out : List Nat),
      ip.length = i → i % 2 = 0 → i ≤ 16 →
      (∀ e, ell = some e → e ≤ i) →
      parseIPv6Aux fuel s i ip ell = some out → out.length = 16 := by
  induction fuel with
  | zero =>
    intro s i ip ell out _ _ _ _ h
    cases h
  | succ fuel ih =>
    intro s i ip ell out hlen heven hi hell h
    unfold parseIPv6Aux at h
    split at h
    · rename_i h16
      exact finishIPv6Length i ip ell s out hlen hi hell h
    · rename_i h16
      split at h
      · cases h
      · rename_i v g htk
        split at h
        · cases h
        · rename_i hg
          split at h
          · split at h
            · cases h
            · split at h
              · cases h
              · rename_i hcond h4
                split at h
                · cases h
                · rename_i f4 hp4
                  obtain ⟨s1, s2, s3, s4, _, hf4, _⟩ := parseIPv4Some s f4 hp4
                  have hf4len : f4.length = 4 := by rw [hf4]; rfl
                  exact finishIPv6Length (i + 4) (ip ++ f4) ell [] out
                    (by simp [hf4len, hlen]) (by omega)
                    (fun e he => Nat.le_trans (hell e he) (by omega)) h
          · split at h
            · exact finishIPv6Length (i + 2) (ip ++ [v / 256, v % 256]) ell [] out
                (by simp [hlen]) (by omega)
                (fun e he => Nat.le_trans (hell e he) (by omega)) h
            · split at h
              · cases h
              · split at h
                · cases h
                · split at h
                  · split at h
                    · cases h
                    · split at h
                      · exact finishIPv6Length (i + 2) (ip ++ [v / 256, v % 256])
                          (some (i + 2)) [] out (by simp [hlen]) (by omega)
                          (fun e he => by injection he with he2; omega) h
                      · exact ih _ (i + 2) (ip ++ [v / 256, v % 256])
                          (some (i + 2)) out (by simp [hlen]) (by omega) (by omega)
                          (fun e he => by injection he with he2; omega) h
                  · exact ih _ (i + 2) (ip ++ [v / 256, v % 256]) ell out
                      (by simp [hlen]) (by omega) (by omega)
                      (fun e he => Nat.le_trans (hell e he) (by omega)) h

/-- parseIPv6Length: a parsed IPv6 address has 16 bytes. -/
theorem parseIPv6Length (s : GoString) (out : List Nat)
    (h : parseIPv6 s = some out) : out.length = 16 := by
  unfold parseIPv6 at h
  split at h
  · cases h
  · split at h
    · split at h
      · have hout : out = List.replicate 16 0 := (Option.some.inj h).symm
        rw [hout]
        simp
      · exact parseIPv6AuxLength (s.length + 1) (s.drop 2) 0 [] (some 0) out
          rfl rfl (by omega) (fun e he => by injection he with he2; omega) h
    · exact parseIPv6AuxLength (s.length + 1) s 0 [] none out
        rfl rfl (by omega) (fun e he => by cases he) h

/-- parseIPColonCase: when net.ParseIP accepts a host and To4 narrows it
to nothing, the parse went through the IPv6 parser, and the host contains
a colon byte. -/
theorem parseIPColonCase (host ip16 : List Nat)
    (hip : parseIP host = some ip16) (hto4 : to4 ip16 = none) :
    parseIPv6 host = some ip16 ∧ 58 ∈ host := by
  unfold parseIP at hip
  split at hip
  · exfalso
    cases hp4 : parseIPv4 host with
    | none =>
      rw [hp4] at hip
      cases hip
    | some f =>
      rw [hp4] at hip
      have hv : v4mapped f = ip16 := Option.some.inj hip
      obtain ⟨s1, s2, s3, s4, _, hf4, _⟩ := parseIPv4Some host f hp4
      rw [← hv, hf4, to4V4mapped] at hto4
      cases hto4
  · rename_i hf
    exact ⟨hip, List.mem_of_find?_eq_some hf⟩
  · cases hip

/-- indexByteSomeOfMem: a byte occurring in a string is found by
indexByte. -/
theorem indexByteSomeOfMem (s : GoString) (b : Nat) (h : b ∈ s) :
    (indexByte s b).isSome = true := by
  induction s with
  | nil => cases h
  | cons c t ih =>
    unfold indexByte
    by_cases hc : c = b
    · rw [if_pos hc]
      rfl
    · rw [if_neg hc]
      have hbt : b ∈ t := by
        rcases List.mem_cons.mp h with hcb | h2
        · exact absurd hcb.symm hc
        · exact h2
      have hst := ih hbt
      cases hio : indexByte t b with
      | none =>
        rw [hio] at hst
        simp at hst
      | some i => rfl

/-- ipString16: a 16-byte address that To4 does not narrow prints in
the RFC 5952 IPv6 form. -/
theorem ipString16 (ip : List Nat) (hlen : ip.length = 16)
    (hto4 : to4 ip = none) : ipString ip = ip6String ip := by
  have hne : ip ≠ [] := by
    intro hc
    rw [hc] at hlen
    cases hlen
  unfold ipString
  rw [if_neg hne, if_neg (show ¬ (ip.length ≠ 4 ∧ ip.length ≠ 16) by
    rw [hlen]; decide), hto4]

/-- splitHostPortBracket: net.SplitHostPort on a bracketed host followed
by a colon and a port splits into that host and port, provided the host
holds no bracket bytes and the port no colon or bracket bytes. -/
theorem splitHostPortBracket (host port2 : GoString)
    (hh91 : 91 ∉ host) (hh93 : 93 ∉ host)
    (hp58 : 58 ∉ port2) (hp91 : 91 ∉ port2) (hp93 : 93 ∉ port2) :
    splitHostPort (91 :: (host ++ 93 :: 58 :: port2)) = .ok (host, port2) := by
  have h93in : (93 : Nat) ∉ 91 :: host := by
    intro hc
    rcases List.mem_cons.mp hc with hc2 | hc2
    · cases hc2
    · exact hh93 hc2
  have hlast : lastIndexByte (91 :: (host ++ 93 :: 58 :: port2)) 58 =
      some (host.length + 1 + 1) := by
    have h := lastIndexByteAppendSep ((91 :: host) ++ [93]) port2 58 hp58
    simpa using h
  have hidx93 : indexByte (91 :: (host ++ 93 :: 58 :: port2)) 93 =
      some (host.length + 1) := by
    have h := indexByteAppendSep (91 :: host) (58 :: port2) 93 h93in
    simpa using h
  have hib91 : indexByte (host ++ 93 :: 58 :: port2) 91 = none := by
    apply indexByteNone
    simp only [List.mem_append, List.mem_cons]
    rintro (h | h | h | h)
    · exact hh91 h
    · cases h
    · cases h
    · exact hp91 h
  have hdrop1 : (host ++ 93 :: 58 :: port2).drop (host.length + 1) =
      58 :: port2 := by
    have hda := @List.drop_append _ host (93 :: 58 :: port2) 1
    simp only [List.drop_succ_cons, List.drop_zero] at hda
    exact hda
  have hib93 : indexByte (58 :: port2) 93 = none := by
    apply indexByteNone
    simp only [List.mem_cons]
    rintro (h | h)
    · cases h
    · exact hp93 h
  have htake : (host ++ 93 :: 58 :: port2).take host.length = host :=
    List.take_left host (93 :: 58 :: port2)
  have hdrop2 : (host ++ 93 :: 58 :: port2).drop (host.length + 2) = port2 := by
    have hda := @List.drop_append _ host (93 :: 58 :: port2) 2
    simp only [List.drop_succ_cons, List.drop_zero] at hda
    exact hda
  unfold splitHostPort
  rw [hlast]
  simp +arith [hidx93, hib91, hdrop1, hib93, htake, hdrop2]

end IPv6Canonical

/-- C4 counterexample. Decoding the encoding does not return the original
address whenever its spelling is not canonical: the port 080 comes back as
80, and the expanded IPv6 host 0:0:0:0:0:0:0:1 comes back in the RFC 5952
form ::1. -/
theorem addrCodecRoundTripCounterexample :
    roundTrip (gs ("1.2.3.4:080")) = .ok (gs ("1.2.3.4:80")) ∧
    gs ("1.2.3.4:80") ≠ gs ("1.2.3.4:080") ∧
    roundTrip (gs ("[0:0:0:0:0:0:0:1]:80")) = .ok (gs ("[::1]:80")) ∧
    gs ("[::1]:80") ≠ gs ("[0:0:0:0:0:0:0:1]:80") := by
  decide

/-- C4 amended. The address codec round-trips every canonically spelled
address with a canonical decimal port in 0..65535. First conjunct: an
unbracketed address whose host is a valid (hence canonical) IPv4 dotted
quad, or a domain — a string net.ParseIP rejects — of at most 255 bytes
without colon bytes. Second conjunct: a bracketed address whose host is
accepted by net.ParseIP as a non-IPv4-mapped address and is its own RFC
5952 rendering. In both cases decoding the encoding returns the original
string. -/
theorem addrCodecRoundTripAmended (host : GoString) (p : Nat)
    (hp : p < 65536) (h91 : 91 ∉ host) (h93 : 93 ∉ host) :
    ((∃ f, parseIPv4 host = some f) ∨
        (parseIP host = none ∧ host.length ≤ 255) →
      58 ∉ host →
      roundTrip (host ++ 58 :: itoa p) = .ok (host ++ 58 :: itoa p)) ∧
    (∀ ip16, parseIP host = some ip16 → to4 ip16 = none →
      ip6String ip16 = host →
      roundTrip (91 :: (host ++ 93 :: 58 :: itoa p)) =
        .ok (91 :: (host ++ 93 :: 58 :: itoa p))) := by
  have hpd := itoaAllDigits p
  have hp58 : 58 ∉ itoa p := by
    intro hc
    have := isDigitBounds _ (hpd _ hc)
    omega
  have hp91 : 91 ∉ itoa p := by
    intro hc
    have := isDigitBounds _ (hpd _ hc)
    omega
  have hp93 : 93 ∉ itoa p := by
    intro hc
    have := isDigitBounds _ (hpd _ hc)
    omega
  have hatoi := atoiItoa p (by omega)
  have hu : uint16Of ((p : Nat) : Int) = p := uint16OfNat p hp
  have hport : 256 * (p / 256) + p % 256 = p := Nat.div_add_mod p 256
  constructor
  · intro hhost h58
    have hsplit := splitHostPortAppend host (itoa p) h58 h91 h93 hp58 hp91 hp93
    have hjoin : joinHostPort host (itoa p) = host ++ 58 :: itoa p := by
      simp [joinHostPort, indexByteNone host 58 h58]
    rcases hhost with ⟨f, hf⟩ | ⟨hnip, hlen⟩
    · obtain ⟨hcanon, hflen, _, _⟩ := ip4StringParseIPv4 host f hf
      obtain ⟨v1, v2, v3, v4, hf4⟩ := existsFour f hflen
      subst hf4
      have hip := parseIPDotted host [v1, v2, v3, v4] hf
      have hsta : stringToAddr (host ++ 58 :: itoa p) =
          .ok ([v1, v2, v3, v4] ++ [p / 256, p % 256], 1) := by
        unfold stringToAddr
        rw [hsplit]
        simp [hip, to4V4mapped, hatoi, hu]
      have hdec : addrToString ([v1, v2, v3, v4] ++ [p / 256, p % 256]) 1 =
          .ok (joinHostPort (ip4String [v1, v2, v3, v4])
                 (itoa (256 * (p / 256) + p % 256)), []) := by
        simp [addrToString, readFull, ipString4]
      unfold roundTrip
      rw [hsta]
      simp only [hdec, hport, hcanon, hjoin]
    · have hlenmod : host.length % 256 = host.length :=
        Nat.mod_eq_of_lt (by omega)
      have hsta : stringToAddr (host ++ 58 :: itoa p) =
          .ok (host.length :: (host ++ [p / 256, p % 256]), 3) := by
        unfold stringToAddr
        rw [hsplit]
        simp [hnip, hatoi, hu, hlenmod]
      have hread : readFull (host ++ [p / 256, p % 256]) host.length =
          .ok (host, [p / 256, p % 256]) := by
        rw [readFullOk _ _ (by simp)]
        rw [List.take_left, List.drop_left]
      have hdec : addrToString (host.length :: (host ++ [p / 256, p % 256])) 3 =
          .ok (joinHostPort host (itoa (256 * (p / 256) + p % 256)), []) := by
        unfold addrToString
        simp [hread, readFull]
      unfold roundTrip
      rw [hsta]
      simp only [hdec, hport, hjoin]
  · intro ip16 hip hto4 hcanon
    obtain ⟨hip6, h58mem⟩ := parseIPColonCase host ip16 hip hto4
    have hlen16 : ip16.length = 16 := parseIPv6Length host ip16 hip6
    have hsplit := splitHostPortBracket host (itoa p) h91 h93 hp58 hp91 hp93
    have hsta : stringToAddr (91 :: (host ++ 93 :: 58 :: itoa p)) =
        .ok (ip16 ++ [p / 256, p % 256], 4) := by
      unfold stringToAddr
      rw [hsplit]
      simp [hip, hto4, hatoi, hu]
    have hipstr : ipString ip16 = host := by
      rw [ipString16 ip16 hlen16 hto4, hcanon]
    have hjoin : joinHostPort host (itoa (256 * (p / 256) + p % 256)) =
        91 :: (host ++ 93 :: 58 :: itoa p) := by
      rw [hport]
      unfold joinHostPort
      rw [if_pos (indexByteSomeOfMem host 58 h58mem)]
    have htk16 : (ip16 ++ [p / 256, p % 256]).take 16 = ip16 := by
      rw [← hlen16]
      exact List.take_left ip16 [p / 256, p % 256]
    have hdr16 : (ip16 ++ [p / 256, p % 256]).drop 16 = [p / 256, p % 256] := by
      rw [← hlen16]
      exact List.drop_left ip16 [p / 256, p % 256]
    have hdec : addrToString (ip16 ++ [p / 256, p % 256]) 4 =
        .ok (joinHostPort (ipString ip16)
               (itoa (256 * (p / 256) + p % 256)), []) := by
      unfold addrToString
      simp [readFull, hlen16, htk16, hdr16]
    unfold roundTrip
    rw [hsta]
    simp only [hdec, hipstr, hjoin]

/-- Witness for C4: the amended theorem round-trips the IPv4 address
1.2.3.4:80, the domain address example.com:443, and the canonical
bracketed IPv6 address [::1]:80. -/
theorem addrCodecRoundTripAmendedWitness :
    roundTrip (gs ("1.2.3.4:80")) = .ok (gs ("1.2.3.4:80")) ∧
    roundTrip (gs ("example.com:443")) = .ok (gs ("example.com:443")) ∧
    roundTrip (gs ("[::1]:80")) = .ok (gs ("[::1]:80")) := by
  refine ⟨?_, ?_, ?_⟩
  · have h := (addrCodecRoundTripAmended (gs ("1.2.3.4")) 80 (by decide)
      (by decide) (by decide)).1 (Or.inl ⟨[1, 2, 3, 4], by decide⟩) (by decide)
    have he : gs ("1.2.3.4:80") = gs ("1.2.3.4") ++ 58 :: itoa 80 := by decide
    rw [he]
    exact h
  · have h := (addrCodecRoundTripAmended (gs ("example.com")) 443 (by decide)
      (by decide) (by decide)).1 (Or.inr ⟨by decide, by decide⟩) (by decide)
    have he : gs ("example.com:443") = gs ("example.com") ++ 58 :: itoa 443 := by
      decide
    rw [he]
    exact h
  · have h := (addrCodecRoundTripAmended (gs ("::1")) 80 (by decide)
      (by decide) (by decide)).2
      [0, 0, 0, 0, 0, 0, 0, 0, 0, 0, 0, 0, 0, 0, 0, 1]
      (by decide) (by decide) (by decide)
    have he : gs ("[::1]:80") = 91 :: (gs ("::1") ++ 93 :: 58 :: itoa 80) := by
      decide
    rw [he]
    exact h

/-!
Concrete evaluations checking the embedded functions on known
input-output pairs of the Go sources.
-/

example : roundTrip (gs ("1.2.3.4:80")) = .ok (gs ("1.2.3.4:80")) := by decide
example : roundTrip (gs ("1.2.3.4:080")) = .ok (gs ("1.2.3.4:80")) := by decide
example : roundTrip (gs ("[0:0:0:0:0:0:0:1]:80")) = .ok (gs ("[::1]:80")) := by decide
example : roundTrip (gs ("example.com:443")) = .ok (gs ("example.com:443")) := by decide
example : addrToString [0, 0, 80] 3 = .ok (gs (":80"), []) := by decide
example : addrToString [1, 2] 7 = .error ("invalid atyp value") := by decide
example :
    socks5Handshake [] (gs ("example.com:80"))
        ([5, 0] ++ [5, 0, 0, 1] ++ [0, 0, 0, 0, 0, 80]) =
      ([[5, 1, 0],
        [5, 1, 0, 3, 11] ++ gs ("example.com") ++ [0, 80]],
       .ok [0, 0, 0, 0, 0, 80]) := by decide
example : socks5Negotiate [5, 1, 2] =
    ([], .error ("no accepted methods proposed by the client")) := by decide
example : socks5Negotiate [5, 2, 2, 0, 9, 9] = ([[5, 0]], .ok [9, 9]) := by decide
example : parseCIDR (gs ("10.0.0.0/8")) = .ok ([10, 0, 0, 0], [255, 0, 0, 0]) := by decide
example :
    ruleEvaluate (fun _ _ => .error (""))
      { Rule := gs ("subnet"), Variable := [], Content := gs ("10.0.0.0/8"),
        Negate := false }
      (gs ("10.1.2.3:80")) = .ok true := by decide
example :
    ruleEvaluate (fun _ _ => .error (""))
      { Rule := gs ("subnet"), Variable := [], Content := gs ("10.0.0.0/8"),
        Negate := true }
      (gs ("foo:80")) = .ok false := by decide
example : parseIPv4 (gs ("1.2.3.4")) = some [1, 2, 3, 4] := by decide
example : parseIPv4 (gs ("01.2.3.4")) = none := by decide
example : parseIPv4 (gs ("1.2.3.256")) = none := by decide
example : parseIP (gs ("foo")) = none := by decide
example : parseIP (gs ("1.2.3.4")) = some (v4mapped [1, 2, 3, 4]) := by decide
example : parseIPv6 (gs ("::1")) =
    some [0, 0, 0, 0, 0, 0, 0, 0, 0, 0, 0, 0, 0, 0, 0, 1] := by decide
example : parseIPv6 (gs ("0:0:0:0:0:0:0:1")) =
    some [0, 0, 0, 0, 0, 0, 0, 0, 0, 0, 0, 0, 0, 0, 0, 1] := by decide
example : parseIPv6 (gs ("::ffff:1.2.3.4")) = some (v4mapped [1, 2, 3, 4]) := by decide
example : parseIPv6 (gs ("1:2:3:4:5:6:7:8:9")) = none := by decide
example : parseIPv6 (gs ("fe80::1%eth0")) = none := by decide
example : ipString [1, 2, 3, 4] = gs ("1.2.3.4") := by decide
example : ipString [0, 0, 0, 0, 0, 0, 0, 0, 0, 0, 0, 0, 0, 0, 0, 1] = gs ("::1") := by decide
example : ipString (v4mapped [1, 2, 3, 4]) = gs ("1.2.3.4") := by decide
example : ipString [32, 1, 13, 184, 0, 0, 0, 0, 0, 1, 0, 0, 0, 0, 0, 2] =
    gs ("2001:db8::1:0:0:2") := by decide
example : splitHostPort (gs ("1.2.3.4:80")) = .ok (gs ("1.2.3.4"), gs ("80")) := by decide
example : splitHostPort (gs ("[0:0:1]:80")) = .ok (gs ("0:0:1"), gs ("80")) := by decide
example : splitHostPort (gs ("foo")) = .error ("missing port in address") := by decide
example : splitHostPort (gs ("a:b:80")) = .error ("too many colons in address") := by decide
example : joinHostPort (gs ("::1")) (gs ("80")) = gs ("[::1]:80") := by decide
example : atoi (gs ("080")) = .ok 80 := by decide
example : atoi (gs ("-3")) = .ok (-3) := by decide
example : itoa 65535 = gs ("65535") := by decide
